import Mathlib

/-!
# Streaming text-file limit checker (rapidbug)

A shallow embedding of `checkers.go` and `fake_reader.go`.

* Bytes are natural numbers; the newline byte is `10`.
* The integer types `Size` and `LineCount` are declared outside the three source
  files; values of both are natural numbers here (the counts start at zero and
  never decrease).
* An `io.Reader` is a state together with a `Read` function.  One call of `Read`
  yields the bytes written to the front of the scratch buffer (so `n` is the
  length of that list) and the error value returned next to them.
* A reader that honours the contract of `Read` returns at most as many bytes as
  the buffer holds.  The facts about the loop do not depend on this bound; where
  a statement needs it (the 16 KiB bound on the overshoot), it is a hypothesis.
* Counts are not reduced modulo a machine word in the main embedding: its
  statements are about runs whose byte and line counts are representable.  For
  the one claim where the largest representable line count matters
  (`NO_LINE_LIMIT`), the loop is embedded a second time, in the namespace
  `Machine`, with the line counter as a 64-bit Go `int` that wraps around.
* The `for` loop of `tryReadAll` is driven by a fuel counter; `none` means that
  no result was produced within the fuel (or that the reader itself failed to
  return).  Every iteration makes exactly one pull, so the fuel counts pulls.
* `FakeReader` is embedded from `fake_reader.go`.  The test wraps it in an
  `io.TeeReader` that copies into a `bytes.Buffer`; such a wrapper hands every
  result of `Read` through unchanged and is left out.
* What the loop does depends on a reader only through the results of its
  pulls (`tryReadAllLoop_eq_runFrom`), so the facts about the loop are proved on
  lists of pull results and then stated for every reader.
-/

namespace Rapidbug

/-! ## Data model -/

/-- Go error value: the nil error, the distinguished value io.EOF, or any other error. -/
inductive Error where
  | nil : Error
  | EOF : Error
  | other (id : Nat) : Error
deriving DecidableEq, Repr

/-- Outcome of one call of Read: the `n` bytes delivered and the error returned with them. -/
structure ReadResult where
  data : List Nat
  err : Error
deriving DecidableEq, Repr

inductive TextFileErrorKind where
  | TextFileExceededByteSizeLimit
  | TextFileExceededLineCountLimit
  | TextFileReadError
deriving DecidableEq, Repr

structure TextFileSize where
  Size : Nat
  LineCount : Nat
deriving DecidableEq, Repr

structure TextFileLimitError where
  Kind : TextFileErrorKind
  BytesRead : Nat
  LinesRead : Nat
  IOError : Error
deriving DecidableEq, Repr

/-- The checker of `checkers.go`; the scratch buffer is represented by its length and the
reader is passed separately to the loop. -/
structure checker where
  scratchBuf : Nat
  sizeLimit : Nat
  lineLimit : Nat
  needLines : Bool
  lastByte : Nat
deriving DecidableEq, Repr

structure TextFileChecker where
  checker : checker
deriving DecidableEq, Repr

/-- The constant NO_LINE_LIMIT, `math.MaxInt` on a 64-bit platform.  It is the largest value
of the line counter in the embedding `Machine` below, where the counter is a Go `int`. -/
def NO_LINE_LIMIT : Nat := 2 ^ 63 - 1

def newChecker (sizeLimit lineLimit : Nat) (needLines : Bool) : checker :=
  { scratchBuf := 16 * 1024, sizeLimit := sizeLimit, lineLimit := lineLimit,
    needLines := needLines, lastByte := 0 }

def NewTextFileChecker (sizeLimit lineLimit : Nat) : TextFileChecker :=
  { checker := newChecker sizeLimit lineLimit true }

/-! ## The read loop -/

/-- The mutable locals of `tryReadAll` that survive one iteration: `soFar` and `c.lastByte`. -/
structure LoopState where
  soFar : TextFileSize
  lastByte : Nat
deriving DecidableEq, Repr

/-- What one iteration of the loop does: return from the function, or go round again. -/
inductive Step where
  | ret (out : TextFileSize × Option TextFileLimitError) : Step
  | next (st : LoopState) : Step
deriving DecidableEq, Repr

/-- The closure `makeError`, reading `soFar` at the moment of the call. -/
def makeError (soFar : TextFileSize) (k : TextFileErrorKind) (err : Error) : TextFileLimitError :=
  { Kind := k, BytesRead := soFar.Size, LinesRead := soFar.LineCount, IOError := err }

/-- The inner loop over the chunk: one increment per newline byte. -/
def scanLines : List Nat → Nat → Nat
  | [], lc => lc
  | b :: bs, lc => scanLines bs (if b = 10 then lc + 1 else lc)

/-- Lines 109 to 128: what happens after the `n > 0` block fell through. -/
def afterChunk (c : checker) (readErr err : Error) (st : LoopState) : Step :=
  if readErr = Error.nil ∨ readErr = Error.EOF then
    if readErr = Error.EOF then
      if st.lastByte ≠ 10 ∧ st.soFar.Size > 0 then
        let soFar : TextFileSize := { st.soFar with LineCount := st.soFar.LineCount + 1 }
        if soFar.LineCount > c.lineLimit then
          Step.ret (soFar,
            some (makeError soFar TextFileErrorKind.TextFileExceededLineCountLimit Error.nil))
        else
          Step.ret (soFar, none)
      else
        Step.ret (st.soFar, none)
    else
      Step.next st
  else
    Step.ret (st.soFar, some (makeError st.soFar TextFileErrorKind.TextFileReadError err))

/-- One iteration of the `for` loop of `tryReadAll`, given what Read returned. -/
def iteration (c : checker) (st : LoopState) (r : ReadResult) : Step :=
  let n := r.data.length
  let readErr := r.err
  let err := if readErr ≠ Error.EOF then readErr else Error.nil
  if n > 0 then
    let lastByte := r.data.getLastD 0
    let soFar : TextFileSize := { st.soFar with Size := st.soFar.Size + n }
    if soFar.Size > c.sizeLimit then
      Step.ret (soFar,
        some (makeError soFar TextFileErrorKind.TextFileExceededByteSizeLimit err))
    else
      let soFar : TextFileSize :=
        if c.needLines then { soFar with LineCount := scanLines r.data soFar.LineCount }
        else soFar
      if c.needLines = true ∧ soFar.LineCount > c.lineLimit then
        Step.ret (soFar,
          some (makeError soFar TextFileErrorKind.TextFileExceededLineCountLimit err))
      else if err ≠ Error.nil then
        Step.ret (soFar, some (makeError soFar TextFileErrorKind.TextFileReadError err))
      else
        afterChunk c readErr err { soFar := soFar, lastByte := lastByte }
  else
    afterChunk c readErr err st

/-- The loop of `tryReadAll` over a reader with state `ρ`. -/
def checker.tryReadAllLoop {ρ : Type} (Read : ρ → Nat → Option (ReadResult × ρ)) (c : checker) :
    Nat → ρ → LoopState → Option (TextFileSize × Option TextFileLimitError)
  | 0, _, _ => none
  | fuel + 1, rd, st =>
    match Read rd c.scratchBuf with
    | none => none
    | some (res, rd1) =>
      match iteration c st res with
      | Step.ret out => some out
      | Step.next st1 => checker.tryReadAllLoop Read c fuel rd1 st1

def checker.tryReadAll {ρ : Type} (Read : ρ → Nat → Option (ReadResult × ρ)) (c : checker)
    (fuel : Nat) (rd : ρ) : Option (TextFileSize × Option TextFileLimitError) :=
  c.tryReadAllLoop Read fuel rd { soFar := { Size := 0, LineCount := 0 }, lastByte := c.lastByte }

def TextFileChecker.TryReadAll {ρ : Type} (Read : ρ → Nat → Option (ReadResult × ρ))
    (t : TextFileChecker) (fuel : Nat) (rd : ρ) :
    Option (TextFileSize × Option TextFileLimitError) :=
  t.checker.tryReadAll Read fuel rd

/-! ## Byte sources -/

/-- A byte source given by the results of its successive pulls.  When the list is used up the
source does not return any more. -/
def scriptRead : List ReadResult → Nat → Option (ReadResult × List ReadResult)
  | [], _ => none
  | p :: ps, _ => some (p, ps)

/-- TryReadAll of a text-file checker with the two limits over a scripted source; one unit of
fuel per scripted pull is enough, as every iteration makes exactly one pull. -/
def readAll (sizeLimit lineLimit : Nat) (pulls : List ReadResult) :
    Option (TextFileSize × Option TextFileLimitError) :=
  (NewTextFileChecker sizeLimit lineLimit).TryReadAll scriptRead pulls.length pulls

structure ReadEvent where
  Data : List Nat
  Err : Error
deriving DecidableEq, Repr

structure FakeReader where
  events : List ReadEvent
  eventIndex : Nat
  dataIndex : Nat
deriving DecidableEq, Repr

def NewFakeReader (events : List ReadEvent) : FakeReader :=
  { events := events, eventIndex := 0, dataIndex := 0 }

/-- The method `FakeReader.Read` for a buffer of length `lenP`.  The two places where Go would
stop with a run-time fault (index or slice bound out of range) give `none`. -/
def FakeReader.Read (r : FakeReader) (lenP : Nat) : Option (ReadResult × FakeReader) :=
  let eof := if r.eventIndex = r.events.length then Error.EOF else Error.nil
  if lenP = 0 then
    some ({ data := [], err := eof }, r)
  else if eof ≠ Error.nil then
    some ({ data := [], err := eof }, r)
  else
    match r.events[r.eventIndex]? with
    | none => none
    | some event =>
      if r.dataIndex > event.Data.length then none
      else
        let ncopy := min (event.Data.drop r.dataIndex).length lenP
        let lo := r.dataIndex
        let hi := r.dataIndex + ncopy
        let copied := (event.Data.take hi).drop lo
        let r1 : FakeReader :=
          if hi = event.Data.length then
            { r with dataIndex := 0, eventIndex := r.eventIndex + 1 }
          else
            { r with dataIndex := r.dataIndex + ncopy }
        some ({ data := copied, err := event.Err }, r1)

/-! ## Reference notions used in the statements -/

/-- Number of newline bytes of an input. -/
def newlines (input : List Nat) : Nat := input.count 10

/-- True line count of an input: its newline bytes, plus one for a non-empty input whose last
byte is not a newline. -/
def lineCountOf (input : List Nat) : Nat :=
  newlines input +
    (match input.getLast? with
     | none => 0
     | some b => if b = 10 then 0 else 1)

/-- Bytes delivered by the first `k` pulls, the pulls delivering `datas` in this order. -/
def delivered (datas : List (List Nat)) (k : Nat) : List Nat := (datas.take k).flatten

/-- Pulls that deliver the given chunks with a nil error each. -/
def plainPulls (chunks : List (List Nat)) : List ReadResult :=
  chunks.map (fun d => { data := d, err := Error.nil })

/-- Results of the first `n` pulls of a reader when every pull is given a buffer of length
`lenP` (the list is shorter if the reader stops returning). -/
def pullsOf {ρ : Type} (Read : ρ → Nat → Option (ReadResult × ρ)) (lenP : Nat) :
    Nat → ρ → List ReadResult
  | 0, _ => []
  | n + 1, rd =>
    match Read rd lenP with
    | none => []
    | some (res, rd1) => res :: pullsOf Read lenP n rd1

/-- All bytes delivered by a list of pulls, in order. -/
def allData (ps : List ReadResult) : List Nat := (ps.map (fun p => p.data)).flatten

/-- A bound on the number of pulls a FakeReader needs for its records: every pull either
finishes a record or copies at least one byte of it; one more pull signals end-of-stream. -/
def fakePullBound (events : List ReadEvent) : Nat :=
  (events.map (fun ev => ev.Data.length + 1)).sum + 1

/-- A pull that yields zero bytes, no error and no end-of-stream. -/
def noopPull : ReadResult := { data := [], err := Error.nil }

/-- The second list of pulls is the first one with no-op pulls inserted at any positions. -/
inductive NoopInsertion : List ReadResult → List ReadResult → Prop where
  | empty : NoopInsertion [] []
  | keep (p : ReadResult) {ps qs : List ReadResult} :
      NoopInsertion ps qs → NoopInsertion (p :: ps) (p :: qs)
  | add {ps qs : List ReadResult} : NoopInsertion ps qs → NoopInsertion ps (noopPull :: qs)

/-- Go's `strings.Split(s, "\n")` on byte strings: the substrings between the newline bytes;
a string without a newline byte gives the one-element list holding the string itself. -/
def Split : List Nat → List (List Nat)
  | [] => [[]]
  | b :: bs =>
    if b = 10 then [] :: Split bs
    else
      match Split bs with
      | [] => [[b]]
      | l :: ls => (b :: l) :: ls

/-- The field `lines` computed by `fileGen` of the test file from the drawn `contents`. -/
def fileGenLines (contents : List Nat) : List (List Nat) :=
  let lines := Split contents
  if contents.length > 0 ∧ contents.getLast? = some 10 then lines.dropLast else lines

/-! ## The loop with the line counter as a machine integer

The same code of `checkers.go`, embedded with `soFar.LineCount`, `c.lineLimit` and `LinesRead`
as values of a 64-bit Go `int`: every `soFar.LineCount++` wraps around.  The byte counter is
kept as in the main embedding. -/

/-- Modelled from the spec: the type `LineCount` is declared outside the source files.  The
constant `NO_LINE_LIMIT = LineCount(math.MaxInt)` is described as the maximum representable
line count, so a `LineCount` is a Go `int` of 64 bits.  For the mathematical result `x` of an
operation on such integers, `wrapInt x` is the value that Go computes (two's complement
wrap-around within `-2^63 .. 2^63 - 1`). -/
def wrapInt (x : Int) : Int :=
  (x + 9223372036854775808) % 18446744073709551616 - 9223372036854775808

namespace Machine

structure TextFileSize where
  Size : Nat
  LineCount : Int
deriving DecidableEq, Repr

structure TextFileLimitError where
  Kind : TextFileErrorKind
  BytesRead : Nat
  LinesRead : Int
  IOError : Error
deriving DecidableEq, Repr

structure checker where
  scratchBuf : Nat
  sizeLimit : Nat
  lineLimit : Int
  needLines : Bool
  lastByte : Nat
deriving DecidableEq, Repr

structure TextFileChecker where
  checker : checker
deriving DecidableEq, Repr

def newChecker (sizeLimit : Nat) (lineLimit : Int) (needLines : Bool) : checker :=
  { scratchBuf := 16 * 1024, sizeLimit := sizeLimit, lineLimit := lineLimit,
    needLines := needLines, lastByte := 0 }

def NewTextFileChecker (sizeLimit : Nat) (lineLimit : Int) : TextFileChecker :=
  { checker := newChecker sizeLimit lineLimit true }

structure LoopState where
  soFar : TextFileSize
  lastByte : Nat
deriving DecidableEq, Repr

inductive Step where
  | ret (out : TextFileSize × Option TextFileLimitError) : Step
  | next (st : LoopState) : Step
deriving DecidableEq, Repr

def makeError (soFar : TextFileSize) (k : TextFileErrorKind) (err : Error) : TextFileLimitError :=
  { Kind := k, BytesRead := soFar.Size, LinesRead := soFar.LineCount, IOError := err }

/-- The inner loop over the chunk: one wrapping increment per newline byte. -/
def scanLines : List Nat → Int → Int
  | [], lc => lc
  | b :: bs, lc => scanLines bs (if b = 10 then wrapInt (lc + 1) else lc)

def afterChunk (c : checker) (readErr err : Error) (st : LoopState) : Step :=
  if readErr = Error.nil ∨ readErr = Error.EOF then
    if readErr = Error.EOF then
      if st.lastByte ≠ 10 ∧ st.soFar.Size > 0 then
        let soFar : TextFileSize :=
          { st.soFar with LineCount := wrapInt (st.soFar.LineCount + 1) }
        if soFar.LineCount > c.lineLimit then
          Step.ret (soFar,
            some (makeError soFar TextFileErrorKind.TextFileExceededLineCountLimit Error.nil))
        else
          Step.ret (soFar, none)
      else
        Step.ret (st.soFar, none)
    else
      Step.next st
  else
    Step.ret (st.soFar, some (makeError st.soFar TextFileErrorKind.TextFileReadError err))

def iteration (c : checker) (st : LoopState) (r : ReadResult) : Step :=
  let n := r.data.length
  let readErr := r.err
  let err := if readErr ≠ Error.EOF then readErr else Error.nil
  if n > 0 then
    let lastByte := r.data.getLastD 0
    let soFar : TextFileSize := { st.soFar with Size := st.soFar.Size + n }
    if soFar.Size > c.sizeLimit then
      Step.ret (soFar,
        some (makeError soFar TextFileErrorKind.TextFileExceededByteSizeLimit err))
    else
      let soFar : TextFileSize :=
        if c.needLines then { soFar with LineCount := scanLines r.data soFar.LineCount }
        else soFar
      if c.needLines = true ∧ soFar.LineCount > c.lineLimit then
        Step.ret (soFar,
          some (makeError soFar TextFileErrorKind.TextFileExceededLineCountLimit err))
      else if err ≠ Error.nil then
        Step.ret (soFar, some (makeError soFar TextFileErrorKind.TextFileReadError err))
      else
        afterChunk c readErr err { soFar := soFar, lastByte := lastByte }
  else
    afterChunk c readErr err st

def checker.tryReadAllLoop {ρ : Type} (Read : ρ → Nat → Option (ReadResult × ρ)) (c : checker) :
    Nat → ρ → LoopState → Option (TextFileSize × Option TextFileLimitError)
  | 0, _, _ => none
  | fuel + 1, rd, st =>
    match Read rd c.scratchBuf with
    | none => none
    | some (res, rd1) =>
      match iteration c st res with
      | Step.ret out => some out
      | Step.next st1 => checker.tryReadAllLoop Read c fuel rd1 st1

def checker.tryReadAll {ρ : Type} (Read : ρ → Nat → Option (ReadResult × ρ)) (c : checker)
    (fuel : Nat) (rd : ρ) : Option (TextFileSize × Option TextFileLimitError) :=
  c.tryReadAllLoop Read fuel rd { soFar := { Size := 0, LineCount := 0 }, lastByte := c.lastByte }

def TextFileChecker.TryReadAll {ρ : Type} (Read : ρ → Nat → Option (ReadResult × ρ))
    (t : TextFileChecker) (fuel : Nat) (rd : ρ) :
    Option (TextFileSize × Option TextFileLimitError) :=
  t.checker.tryReadAll Read fuel rd

/-- The loop state reached after the bytes `inp` were consumed without leaving the loop. -/
def stateOf (inp : List Nat) : LoopState :=
  { soFar := { Size := inp.length, LineCount := wrapInt (newlines inp) },
    lastByte := inp.getLastD 0 }

end Machine

/-! ## Auxiliary facts about scripted runs -/

/-- The loop over a scripted source, started from an arbitrary loop state. -/
def runFrom (c : checker) (st : LoopState) (pulls : List ReadResult) :
    Option (TextFileSize × Option TextFileLimitError) :=
  c.tryReadAllLoop scriptRead pulls.length pulls st

/-- The loop state reached after the bytes `inp` were consumed without leaving the loop. -/
def stateOf (inp : List Nat) : LoopState :=
  { soFar := { Size := inp.length, LineCount := newlines inp }, lastByte := inp.getLastD 0 }

/-- The error kept for the report: io.EOF is replaced by nil. -/
def quiet (e : Error) : Error := if e ≠ Error.EOF then e else Error.nil

theorem runFrom_nil (c : checker) (st : LoopState) : runFrom c st [] = none := rfl

theorem runFrom_cons (c : checker) (st : LoopState) (p : ReadResult) (ps : List ReadResult) :
    runFrom c st (p :: ps) =
      match iteration c st p with
      | Step.ret out => some out
      | Step.next st1 => runFrom c st1 ps := rfl

theorem scanLines_eq (d : List Nat) (lc : Nat) : scanLines d lc = lc + newlines d := by
  induction d generalizing lc with
  | nil => simp [scanLines, newlines]
  | cons b bs ih =>
    simp only [scanLines, ih, newlines, List.count_cons]
    by_cases hb : b = 10
    · subst hb; simp; omega
    · have hb2 : ¬ (10 = b) := fun h => hb h.symm
      simp [hb]

theorem newlines_append (a b : List Nat) : newlines (a ++ b) = newlines a + newlines b := by
  simp [newlines]

theorem getLastD_append_ne_nil (a b : List Nat) (h : b ≠ []) :
    (a ++ b).getLastD 0 = b.getLastD 0 := by
  obtain ⟨l, x, rfl⟩ := List.eq_nil_or_concat b |>.resolve_left h
  simp [← List.append_assoc, List.getLastD_concat]

theorem lineCountOf_eq (inp : List Nat) :
    lineCountOf inp = newlines inp + (if inp.getLastD 0 ≠ 10 ∧ inp.length > 0 then 1 else 0) := by
  rcases List.eq_nil_or_concat inp with rfl | ⟨l, x, rfl⟩
  · simp [lineCountOf]
  · simp [lineCountOf, List.getLastD_concat]

/-- What one iteration does on a state reached by consuming `inp`, for a text-file checker. -/
theorem iteration_stateOf (S L : Nat) (inp d : List Nat) (e : Error)
    (hS : inp.length ≤ S) (hL : newlines inp ≤ L) :
    iteration (newChecker S L true) (stateOf inp) { data := d, err := e } =
      if (inp ++ d).length > S then
        Step.ret ({ Size := (inp ++ d).length, LineCount := newlines inp },
          some { Kind := TextFileErrorKind.TextFileExceededByteSizeLimit,
                 BytesRead := (inp ++ d).length, LinesRead := newlines inp, IOError := quiet e })
      else if newlines (inp ++ d) > L then
        Step.ret ({ Size := (inp ++ d).length, LineCount := newlines (inp ++ d) },
          some { Kind := TextFileErrorKind.TextFileExceededLineCountLimit,
                 BytesRead := (inp ++ d).length, LinesRead := newlines (inp ++ d),
                 IOError := quiet e })
      else
        match e with
        | Error.nil => Step.next (stateOf (inp ++ d))
        | Error.EOF =>
          if lineCountOf (inp ++ d) > L then
            Step.ret ({ Size := (inp ++ d).length, LineCount := lineCountOf (inp ++ d) },
              some { Kind := TextFileErrorKind.TextFileExceededLineCountLimit,
                     BytesRead := (inp ++ d).length, LinesRead := lineCountOf (inp ++ d),
                     IOError := Error.nil })
          else
            Step.ret ({ Size := (inp ++ d).length, LineCount := lineCountOf (inp ++ d) }, none)
        | Error.other x =>
          Step.ret ({ Size := (inp ++ d).length, LineCount := newlines (inp ++ d) },
            some { Kind := TextFileErrorKind.TextFileReadError,
                   BytesRead := (inp ++ d).length, LinesRead := newlines (inp ++ d),
                   IOError := Error.other x }) := by
  by_cases hd : d = []
  · subst hd
    have h1 : ¬ (inp.length > S) := by omega
    have h2 : ¬ (newlines inp > L) := by omega
    simp only [iteration, afterChunk, stateOf, makeError, newChecker, List.append_nil,
      lineCountOf_eq inp, h1, h2, List.length_nil, gt_iff_lt, lt_irrefl, if_false]
    generalize inp.getLastD 0 = lb
    generalize inp.length = n at *
    generalize newlines inp = m at *
    cases e with
    | nil => simp
    | EOF =>
      by_cases h3 : lb = 10
      · simp [h3, Nat.not_lt.mpr hL]
      · by_cases h4 : 0 < n
        · simp [h3, h4]
        · simp [h3, h4, Nat.not_lt.mpr hL]
    | other x => simp
  · have hlen : 0 < d.length := List.length_pos.mpr hd
    have hlast : (inp ++ d).getLastD 0 = d.getLastD 0 := getLastD_append_ne_nil inp d hd
    simp only [iteration, newChecker, stateOf, makeError, scanLines_eq, List.length_append,
      newlines_append, hlen, gt_iff_lt, if_true, true_and, afterChunk, lineCountOf_eq (inp ++ d),
      hlast, quiet]
    generalize d.getLastD 0 = lb
    generalize inp.length = n at *
    generalize newlines inp = m at *
    generalize d.length = k at *
    generalize newlines d = j at *
    by_cases h1 : S < n + k
    · simp [h1]
    · by_cases h2 : L < m + j
      · simp [h1, h2]
      · cases e with
        | nil => simp [h1, h2]
        | EOF =>
          have h4 : 0 < n + k := by omega
          by_cases h3 : lb = 10
          · simp [h1, h2, h3]
          · simp [h1, h2, h3, h4]
        | other x => simp [h1, h2]

theorem readAll_eq_stateOf (S L : Nat) (ps : List ReadResult) :
    readAll S L ps = runFrom (newChecker S L true) (stateOf []) ps := rfl

theorem newlines_le_lineCountOf (inp : List Nat) : newlines inp ≤ lineCountOf inp := by
  rw [lineCountOf_eq]; omega

/-- Plain pulls that stay within both limits are consumed and lead to the state of the longer
input. -/
theorem runFrom_plainPulls (S L : Nat) (chunks : List (List Nat)) (rest : List ReadResult) :
    ∀ inp : List Nat, (inp ++ chunks.flatten).length ≤ S → newlines (inp ++ chunks.flatten) ≤ L →
      runFrom (newChecker S L true) (stateOf inp) (plainPulls chunks ++ rest) =
        runFrom (newChecker S L true) (stateOf (inp ++ chunks.flatten)) rest := by
  induction chunks with
  | nil => intro inp _ _; simp [plainPulls]
  | cons c0 cs ih =>
    intro inp hS hL
    simp only [List.flatten_cons, ← List.append_assoc] at hS hL
    have hS1 : (inp ++ c0).length ≤ S := by
      simp only [List.length_append] at hS ⊢; omega
    have hL1 : newlines (inp ++ c0) ≤ L := by
      simp only [newlines_append] at hL ⊢; omega
    have hS0 : inp.length ≤ S := by simp only [List.length_append] at hS1; omega
    have hL0 : newlines inp ≤ L := by simp only [newlines_append] at hL1; omega
    have hstep := iteration_stateOf S L inp c0 Error.nil hS0 hL0
    rw [if_neg (by omega), if_neg (by omega)] at hstep
    have ih1 := ih (inp ++ c0) hS hL
    simp only [plainPulls, List.map_cons, List.cons_append, runFrom_cons, hstep,
      List.flatten_cons, ← List.append_assoc] at ih1 ⊢
    exact ih1

/-- An error-free source whose whole input is within both limits is read with success. -/
theorem runFrom_within (S L : Nat) (inp : List Nat) (chunks : List (List Nat)) (d : List Nat)
    (post : List ReadResult)
    (hS : (inp ++ chunks.flatten ++ d).length ≤ S)
    (hL : lineCountOf (inp ++ chunks.flatten ++ d) ≤ L) :
    runFrom (newChecker S L true) (stateOf inp)
        (plainPulls chunks ++ { data := d, err := Error.EOF } :: post) =
      some ({ Size := (inp ++ chunks.flatten ++ d).length,
              LineCount := lineCountOf (inp ++ chunks.flatten ++ d) }, none) := by
  have hL1 := newlines_le_lineCountOf (inp ++ chunks.flatten ++ d)
  have hS2 : (inp ++ chunks.flatten).length ≤ S := by
    simp only [List.length_append] at hS ⊢; omega
  have hL2 : newlines (inp ++ chunks.flatten) ≤ L := by
    simp only [newlines_append] at hL1 ⊢; omega
  rw [runFrom_plainPulls S L chunks _ inp hS2 hL2, runFrom_cons,
    iteration_stateOf S L _ d Error.EOF hS2 hL2]
  rw [if_neg (by omega), if_neg (by omega)]
  simp only []
  rw [if_neg (by omega)]

/-- An error-free source read with success has its whole input within both limits. -/
theorem runFrom_success (S L : Nat) (chunks : List (List Nat)) (d : List Nat)
    (post : List ReadResult) (sz : TextFileSize) :
    ∀ inp : List Nat, inp.length ≤ S → newlines inp ≤ L →
      runFrom (newChecker S L true) (stateOf inp)
          (plainPulls chunks ++ { data := d, err := Error.EOF } :: post) = some (sz, none) →
      (inp ++ chunks.flatten ++ d).length ≤ S ∧ lineCountOf (inp ++ chunks.flatten ++ d) ≤ L := by
  induction chunks with
  | nil =>
    intro inp hS hL h
    simp only [plainPulls, List.map_nil, List.nil_append, runFrom_cons,
      iteration_stateOf S L inp d Error.EOF hS hL, List.flatten_nil, List.append_nil] at h ⊢
    by_cases h1 : (inp ++ d).length > S
    · rw [if_pos h1] at h; simp at h
    · by_cases h2 : newlines (inp ++ d) > L
      · rw [if_neg h1, if_pos h2] at h; simp at h
      · by_cases h3 : lineCountOf (inp ++ d) > L
        · rw [if_neg h1, if_neg h2, if_pos h3] at h; simp at h
        · omega
  | cons c0 cs ih =>
    intro inp hS hL h
    simp only [plainPulls, List.map_cons, List.cons_append, runFrom_cons,
      iteration_stateOf S L inp c0 Error.nil hS hL] at h
    by_cases h1 : (inp ++ c0).length > S
    · rw [if_pos h1] at h; simp at h
    · by_cases h2 : newlines (inp ++ c0) > L
      · rw [if_neg h1, if_pos h2] at h; simp at h
      · rw [if_neg h1, if_neg h2] at h
        have := ih (inp ++ c0) (by omega) (by omega) h
        simpa only [List.flatten_cons, ← List.append_assoc] using this

theorem delivered_zero (datas : List (List Nat)) : delivered datas 0 = [] := by
  simp [delivered]

theorem delivered_cons_succ (c0 : List Nat) (datas : List (List Nat)) (k : Nat) :
    delivered (c0 :: datas) (k + 1) = c0 ++ delivered datas k := by
  simp [delivered]

theorem delivered_all (datas : List (List Nat)) (k : Nat) (h : datas.length ≤ k) :
    delivered datas k = datas.flatten := by
  simp [delivered, List.take_of_length_le h]

/-- An error-free source whose input crosses a limit: the run fails at the earliest crossing
pull, with the byte-size kind taking precedence within that pull. -/
theorem runFrom_over (S L : Nat) (chunks : List (List Nat)) (d : List Nat)
    (post : List ReadResult) :
    ∀ inp : List Nat, inp.length ≤ S → newlines inp ≤ L →
      ((inp ++ chunks.flatten ++ d).length > S ∨ lineCountOf (inp ++ chunks.flatten ++ d) > L) →
      ∃ sz e, runFrom (newChecker S L true) (stateOf inp)
          (plainPulls chunks ++ { data := d, err := Error.EOF } :: post) = some (sz, some e) ∧
        e.Kind ≠ TextFileErrorKind.TextFileReadError ∧
        ∀ k, k ≤ chunks.length →
          (inp ++ delivered (chunks ++ [d]) k).length ≤ S →
          newlines (inp ++ delivered (chunks ++ [d]) k) ≤ L →
          ((inp ++ delivered (chunks ++ [d]) (k + 1)).length > S →
            e.Kind = TextFileErrorKind.TextFileExceededByteSizeLimit) ∧
          ((inp ++ delivered (chunks ++ [d]) (k + 1)).length ≤ S →
            (newlines (inp ++ delivered (chunks ++ [d]) (k + 1)) > L ∨
              (k = chunks.length ∧ lineCountOf (inp ++ chunks.flatten ++ d) > L)) →
            e.Kind = TextFileErrorKind.TextFileExceededLineCountLimit) := by
  induction chunks with
  | nil =>
    intro inp hS hL hover
    simp only [List.flatten_nil, List.append_nil] at hover
    have hd1 : delivered [d] (0 + 1) = d := by simp [delivered]
    simp only [plainPulls, List.map_nil, List.nil_append, runFrom_cons,
      iteration_stateOf S L inp d Error.EOF hS hL]
    by_cases h1 : (inp ++ d).length > S
    · rw [if_pos h1]
      refine ⟨_, _, rfl, by simp, ?_⟩
      intro k hk _ _
      have hk0 : k = 0 := by simpa using hk
      subst hk0
      rw [hd1]
      exact ⟨fun _ => rfl, fun h => absurd h1 (by omega)⟩
    · by_cases h2 : newlines (inp ++ d) > L
      · rw [if_neg h1, if_pos h2]
        refine ⟨_, _, rfl, by simp, ?_⟩
        intro k hk _ _
        have hk0 : k = 0 := by simpa using hk
        subst hk0
        rw [hd1]
        exact ⟨fun h => absurd h h1, fun _ _ => rfl⟩
      · have h3 : lineCountOf (inp ++ d) > L := by
          rcases hover with h | h
          · exact absurd h h1
          · exact h
        rw [if_neg h1, if_neg h2, if_pos h3]
        refine ⟨_, _, rfl, by simp, ?_⟩
        intro k hk _ _
        have hk0 : k = 0 := by simpa using hk
        subst hk0
        rw [hd1]
        exact ⟨fun h => absurd h h1, fun _ _ => rfl⟩
  | cons c0 cs ih =>
    intro inp hS hL hover
    simp only [plainPulls, List.map_cons, List.cons_append, runFrom_cons,
      iteration_stateOf S L inp c0 Error.nil hS hL]
    have hmonoS : ∀ k, (inp ++ c0).length ≤ (inp ++ delivered (c0 :: (cs ++ [d])) (k + 1)).length := by
      intro k; rw [delivered_cons_succ]; simp only [List.length_append]; omega
    have hmonoL : ∀ k, newlines (inp ++ c0) ≤ newlines (inp ++ delivered (c0 :: (cs ++ [d])) (k + 1)) := by
      intro k; rw [delivered_cons_succ]; simp only [newlines_append]; omega
    by_cases h1 : (inp ++ c0).length > S
    · rw [if_pos h1]
      refine ⟨_, _, rfl, by simp, ?_⟩
      intro k _ hbS _
      cases k with
      | zero =>
        refine ⟨fun _ => rfl, fun h => ?_⟩
        have := hmonoS 0
        rw [delivered_cons_succ, delivered_zero, List.append_nil] at h
        omega
      | succ k1 =>
        have := hmonoS k1
        omega
    · by_cases h2 : newlines (inp ++ c0) > L
      · rw [if_neg h1, if_pos h2]
        refine ⟨_, _, rfl, by simp, ?_⟩
        intro k _ _ hbL
        cases k with
        | zero =>
          refine ⟨fun h => ?_, fun _ _ => rfl⟩
          rw [delivered_cons_succ, delivered_zero, List.append_nil] at h
          omega
        | succ k1 =>
          have := hmonoL k1
          omega
      · rw [if_neg h1, if_neg h2]
        have hover1 : (inp ++ c0 ++ cs.flatten ++ d).length > S ∨
            lineCountOf (inp ++ c0 ++ cs.flatten ++ d) > L := by
          simpa only [List.flatten_cons, ← List.append_assoc] using hover
        obtain ⟨sz, e, hrun, hkind, hall⟩ := ih (inp ++ c0) (by omega) (by omega) hover1
        refine ⟨sz, e, hrun, hkind, ?_⟩
        intro k hk hbS hbL
        cases k with
        | zero =>
          rw [delivered_cons_succ, delivered_zero, List.append_nil]
          refine ⟨fun h => absurd h h1, fun _ h => ?_⟩
          rcases h with h | ⟨h, _⟩
          · exact absurd h h2
          · simp at h
        | succ k1 =>
          have hk1 : k1 ≤ cs.length := by simpa using hk
          rw [delivered_cons_succ, ← List.append_assoc] at hbS hbL
          have := hall k1 hk1 hbS hbL
          rw [delivered_cons_succ, ← List.append_assoc]
          simp only [List.flatten_cons, ← List.append_assoc, List.length_cons,
            Nat.add_right_cancel_iff]
          exact this

/-- Facts about every failure produced by one iteration, from any loop state. -/
theorem iteration_ret_some (c : checker) (st : LoopState) (p : ReadResult) (sz : TextFileSize)
    (e : TextFileLimitError) (h : iteration c st p = Step.ret (sz, some e)) :
    (e.Kind = TextFileErrorKind.TextFileExceededByteSizeLimit → e.BytesRead > c.sizeLimit) ∧
    (e.Kind = TextFileErrorKind.TextFileExceededLineCountLimit → e.LinesRead > c.lineLimit) ∧
    e.IOError = quiet p.err ∧
    (e.Kind = TextFileErrorKind.TextFileReadError → e.IOError ≠ Error.nil) := by
  obtain ⟨d, pe⟩ := p
  obtain ⟨⟨s0, l0⟩, lb⟩ := st
  cases pe with
  | nil =>
    simp only [iteration, afterChunk, makeError, quiet, ne_eq, reduceCtorEq, not_false_eq_true,
      if_true, not_true_eq_false, if_false, true_or] at h ⊢
    split_ifs at h <;> simp at h <;> obtain ⟨_, rfl⟩ := h <;> simp_all
  | EOF =>
    simp only [iteration, afterChunk, makeError, quiet, ne_eq, reduceCtorEq, not_false_eq_true,
      if_true, not_true_eq_false, if_false, or_true] at h ⊢
    split_ifs at h <;> simp at h <;> obtain ⟨_, rfl⟩ := h <;> simp_all
  | other x =>
    simp only [iteration, afterChunk, makeError, quiet, ne_eq, reduceCtorEq, not_false_eq_true,
      if_true, not_true_eq_false, if_false, or_self] at h ⊢
    split_ifs at h <;> simp at h <;> obtain ⟨_, rfl⟩ := h <;> simp_all

/-- A result of the loop is the result of one of its iterations. -/
theorem tryReadAllLoop_some {ρ : Type} (Read : ρ → Nat → Option (ReadResult × ρ)) (c : checker)
    (out : TextFileSize × Option TextFileLimitError) :
    ∀ (fuel : Nat) (rd : ρ) (st : LoopState), c.tryReadAllLoop Read fuel rd st = some out →
      ∃ st1 res, iteration c st1 res = Step.ret out := by
  intro fuel
  induction fuel with
  | zero => intro rd st h; simp [checker.tryReadAllLoop] at h
  | succ n ih =>
    intro rd st h
    simp only [checker.tryReadAllLoop] at h
    cases hr : Read rd c.scratchBuf with
    | none => simp [hr] at h
    | some pr =>
      obtain ⟨res, rd1⟩ := pr
      simp only [hr] at h
      cases hi : iteration c st res with
      | ret o =>
        simp only [hi, Option.some.injEq] at h
        exact ⟨st, res, by rw [hi, h]⟩
      | next st1 =>
        simp only [hi] at h
        exact ih rd1 st1 h

/-- A result of a scripted run is produced at one pull of the script, and not before. -/
theorem runFrom_some_pull (c : checker) (out : TextFileSize × Option TextFileLimitError) :
    ∀ (ps : List ReadResult) (st : LoopState), runFrom c st ps = some out →
      ∃ k p st1, ps[k]? = some p ∧ runFrom c st (ps.take k) = none ∧
        runFrom c st (ps.take (k + 1)) = some out ∧ iteration c st1 p = Step.ret out := by
  intro ps
  induction ps with
  | nil => intro st h; simp [runFrom_nil] at h
  | cons p0 ps ih =>
    intro st h
    rw [runFrom_cons] at h
    cases hi : iteration c st p0 with
    | ret o =>
      simp only [hi, Option.some.injEq] at h
      refine ⟨0, p0, st, by simp, by simp [runFrom_nil], ?_, by rw [hi, h]⟩
      simp [runFrom_cons, hi, h]
    | next st1 =>
      simp only [hi] at h
      obtain ⟨k, p, st2, hk, hnone, hsome, hit⟩ := ih st1 h
      refine ⟨k + 1, p, st2, by simpa using hk, ?_, ?_, hit⟩
      · simp only [List.take_succ_cons, runFrom_cons, hi]; exact hnone
      · simp only [List.take_succ_cons, runFrom_cons, hi]; exact hsome

theorem iteration_noopPull (c : checker) (st : LoopState) :
    iteration c st noopPull = Step.next st := by
  simp [iteration, afterChunk, noopPull]

/-- Inserted no-op pulls do not change what a scripted run produces. -/
theorem runFrom_noopInsertion (c : checker) {ps qs : List ReadResult}
    (h : NoopInsertion ps qs) : ∀ st : LoopState, runFrom c st qs = runFrom c st ps := by
  induction h with
  | empty => intro st; rfl
  | keep p _ ih =>
    intro st
    rw [runFrom_cons, runFrom_cons]
    cases iteration c st p with
    | ret o => rfl
    | next st1 => exact ih st1
  | add _ ih =>
    intro st
    rw [runFrom_cons, iteration_noopPull]
    exact ih st

/-- An error-free source whose input is longer than the size limit, with the line limit not
crossed before the byte limit is: the run fails with the byte-size kind. -/
theorem runFrom_byteLimit (S L : Nat) (chunks : List (List Nat)) (d : List Nat)
    (post : List ReadResult) :
    ∀ inp : List Nat, inp.length ≤ S → newlines inp ≤ L →
      (inp ++ chunks.flatten ++ d).length > S →
      (∀ k, k ≤ chunks.length → (inp ++ delivered chunks k).length ≤ S →
        newlines (inp ++ delivered chunks k) ≤ L) →
      ∃ sz e, runFrom (newChecker S L true) (stateOf inp)
          (plainPulls chunks ++ { data := d, err := Error.EOF } :: post) = some (sz, some e) ∧
        e.Kind = TextFileErrorKind.TextFileExceededByteSizeLimit ∧
        e.BytesRead ≥ S + 1 ∧ e.IOError = Error.nil := by
  induction chunks with
  | nil =>
    intro inp hS hL hover _
    simp only [List.flatten_nil, List.append_nil] at hover
    simp only [plainPulls, List.map_nil, List.nil_append, runFrom_cons,
      iteration_stateOf S L inp d Error.EOF hS hL]
    rw [if_pos hover]
    exact ⟨_, _, rfl, rfl, hover, by simp [quiet]⟩
  | cons c0 cs ih =>
    intro inp hS hL hover hlines
    simp only [plainPulls, List.map_cons, List.cons_append, runFrom_cons,
      iteration_stateOf S L inp c0 Error.nil hS hL]
    by_cases h1 : (inp ++ c0).length > S
    · rw [if_pos h1]
      exact ⟨_, _, rfl, rfl, h1, by simp [quiet]⟩
    · have hc0 : delivered (c0 :: cs) (0 + 1) = c0 := by
        rw [delivered_cons_succ, delivered_zero, List.append_nil]
      have h2 : ¬ newlines (inp ++ c0) > L := by
        have := hlines (0 + 1) (by simp) (by rw [hc0]; omega)
        rw [hc0] at this
        omega
      rw [if_neg h1, if_neg h2]
      have hover1 : (inp ++ c0 ++ cs.flatten ++ d).length > S := by
        simpa only [List.flatten_cons, ← List.append_assoc] using hover
      refine ih (inp ++ c0) (by omega) (by omega) hover1 ?_
      intro k hk hkS
      have := hlines (k + 1) (by simpa using hk)
      rw [delivered_cons_succ, ← List.append_assoc] at this
      exact this hkS

/-- A pull with a non-EOF error, reached after plain pulls that cross no limit. -/
theorem runFrom_error_pull (S L : Nat) (pre : List (List Nat)) (d : List Nat) (x : Nat)
    (post : List ReadResult) (hS : pre.flatten.length ≤ S) (hL : newlines pre.flatten ≤ L) :
    runFrom (newChecker S L true) (stateOf [])
        (plainPulls pre ++ { data := d, err := Error.other x } :: post) =
      match iteration (newChecker S L true) (stateOf pre.flatten)
          { data := d, err := Error.other x } with
      | Step.ret out => some out
      | Step.next st1 => runFrom (newChecker S L true) st1 post := by
  rw [runFrom_plainPulls S L pre _ [] (by simpa using hS) (by simpa using hL), runFrom_cons]
  simp

/-- The loop over any reader gives what the scripted run over the results of the reader's
pulls gives: a scripted source stands for every reader with these pull results. -/
theorem tryReadAllLoop_eq_runFrom {ρ : Type} (Read : ρ → Nat → Option (ReadResult × ρ))
    (c : checker) :
    ∀ (fuel : Nat) (rd : ρ) (st : LoopState),
      c.tryReadAllLoop Read fuel rd st = runFrom c st (pullsOf Read c.scratchBuf fuel rd) := by
  intro fuel
  induction fuel with
  | zero => intro rd st; rfl
  | succ n ih =>
    intro rd st
    simp only [checker.tryReadAllLoop, pullsOf]
    cases hr : Read rd c.scratchBuf with
    | none => simp [runFrom_nil]
    | some pr =>
      obtain ⟨res, rd1⟩ := pr
      simp only [runFrom_cons]
      cases iteration c st res with
      | ret o => rfl
      | next st1 => exact ih rd1 st1

theorem Split_length (s : List Nat) : (Split s).length = newlines s + 1 := by
  induction s with
  | nil => simp [Split, newlines]
  | cons b bs ih =>
    by_cases hb : b = 10
    · subst hb
      simp [Split, ih, newlines] at ih ⊢
    · have hb2 : ¬ (10 = b) := fun h => hb h.symm
      simp only [Split, hb, if_false]
      cases hs : Split bs with
      | nil => simp [hs] at ih
      | cons l ls =>
        simp only [hs, List.length_cons, newlines] at ih ⊢
        simp [List.count_cons, hb]
        omega

/-- For a non-empty file the number of lines computed by `fileGen` is the true line count. -/
theorem fileGenLines_length (contents : List Nat) (h : contents ≠ []) :
    (fileGenLines contents).length = lineCountOf contents := by
  obtain ⟨l, x, rfl⟩ := List.eq_nil_or_concat contents |>.resolve_left h
  by_cases hx : x = 10
  · simp [fileGenLines, lineCountOf, Split_length, hx]
  · simp [fileGenLines, lineCountOf, Split_length, hx]

theorem FakeReader_Read_event (evs : List ReadEvent) (i B : Nat) (ev : ReadEvent)
    (hB : 0 < B) (hi : evs[i]? = some ev) (hlen : ev.Data.length ≤ B) :
    FakeReader.Read { events := evs, eventIndex := i, dataIndex := 0 } B =
      some ({ data := ev.Data, err := ev.Err },
        { events := evs, eventIndex := i + 1, dataIndex := 0 }) := by
  have hlt : i < evs.length := by
    rcases Nat.lt_or_ge i evs.length with h | h
    · exact h
    · rw [List.getElem?_eq_none h] at hi; cases hi
  have hne : i ≠ evs.length := Nat.ne_of_lt hlt
  have hB0 : B ≠ 0 := Nat.pos_iff_ne_zero.mp hB
  simp [FakeReader.Read, hne, hB0, hi, Nat.min_eq_left hlen]

theorem FakeReader_Read_eof (evs : List ReadEvent) (B : Nat) :
    FakeReader.Read { events := evs, eventIndex := evs.length, dataIndex := 0 } B =
      some ({ data := [], err := Error.EOF },
        { events := evs, eventIndex := evs.length, dataIndex := 0 }) := by
  by_cases hB : B = 0 <;> simp [FakeReader.Read, hB]

/-- A run over a FakeReader whose records each fit the scratch buffer and carry no io.EOF:
when it ends without failure, the counts are those of the data of the remaining records. -/
theorem fakeReader_success_from (S L : Nat) (evs : List ReadEvent) (sz : TextFileSize)
    (hfit : ∀ ev ∈ evs, ev.Data.length ≤ 16 * 1024)
    (hnoEOF : ∀ ev ∈ evs, ev.Err ≠ Error.EOF) :
    ∀ (fuel i : Nat) (inp : List Nat), inp.length ≤ S → newlines inp ≤ L →
      (newChecker S L true).tryReadAllLoop FakeReader.Read fuel
          { events := evs, eventIndex := i, dataIndex := 0 } (stateOf inp) = some (sz, none) →
      i ≤ evs.length →
      sz.Size = (inp ++ ((evs.drop i).map (fun ev => ev.Data)).flatten).length ∧
      sz.LineCount = lineCountOf (inp ++ ((evs.drop i).map (fun ev => ev.Data)).flatten) := by
  intro fuel
  induction fuel with
  | zero => intro i inp _ _ h; simp [checker.tryReadAllLoop] at h
  | succ n ih =>
    intro i inp hS hL h hi
    have hbuf : (newChecker S L true).scratchBuf = 16 * 1024 := rfl
    rcases Nat.eq_or_lt_of_le hi with heq | hlt
    · subst heq
      simp only [checker.tryReadAllLoop, hbuf, FakeReader_Read_eof,
        iteration_stateOf S L inp [] Error.EOF hS hL, List.append_nil] at h
      rw [if_neg (by omega), if_neg (by omega)] at h
      simp only [List.drop_length, List.map_nil, List.flatten_nil, List.append_nil]
      by_cases h3 : lineCountOf inp > L
      · rw [if_pos h3] at h; simp at h
      · rw [if_neg h3] at h
        simp only [Option.some.injEq, Prod.mk.injEq, and_true] at h
        subst h
        exact ⟨rfl, rfl⟩
    · have hget : evs[i]? = some evs[i] := List.getElem?_eq_getElem hlt
      have hmem : evs[i] ∈ evs := List.getElem_mem hlt
      have hdrop : evs.drop i = evs[i] :: evs.drop (i + 1) := List.drop_eq_getElem_cons hlt
      simp only [checker.tryReadAllLoop, hbuf,
        FakeReader_Read_event evs i (16 * 1024) evs[i] (by decide) hget (hfit _ hmem),
        iteration_stateOf S L inp evs[i].Data evs[i].Err hS hL] at h
      rw [hdrop, List.map_cons, List.flatten_cons, ← List.append_assoc]
      by_cases h1 : (inp ++ evs[i].Data).length > S
      · rw [if_pos h1] at h; simp at h
      · by_cases h2 : newlines (inp ++ evs[i].Data) > L
        · rw [if_neg h1, if_pos h2] at h; simp at h
        · rw [if_neg h1, if_neg h2] at h
          cases herr : evs[i].Err with
          | nil =>
            simp only [herr] at h
            exact ih (i + 1) (inp ++ evs[i].Data) (by omega) (by omega) h hlt
          | EOF => exact absurd herr (hnoEOF _ hmem)
          | other x => simp [herr] at h

/-- Support for C2: for every non-empty file contents, every split of it into FakeReader
records that fit the scratch buffer and carry no io.EOF, and all limits, a TryReadAll that
returns a nil error returns as LineCount the number of lines computed by `fileGen`. -/
theorem fileGen_nonempty_line_count (S L : Nat) (contents : List Nat) (evs : List ReadEvent)
    (fuel : Nat) (sz : TextFileSize) (hne : contents ≠ [])
    (hsplit : (evs.map (fun ev => ev.Data)).flatten = contents)
    (hfit : ∀ ev ∈ evs, ev.Data.length ≤ 16 * 1024)
    (hnoEOF : ∀ ev ∈ evs, ev.Err ≠ Error.EOF)
    (h : (NewTextFileChecker S L).TryReadAll FakeReader.Read fuel (NewFakeReader evs) =
      some (sz, none)) :
    sz.LineCount = (fileGenLines contents).length := by
  have h1 := fakeReader_success_from S L evs sz hfit hnoEOF fuel 0 [] (by simp)
    (by simp [newlines]) h (Nat.zero_le _)
  rw [fileGenLines_length contents hne, ← hsplit]
  simpa using h1.2

/-! ## From readers to scripts -/

theorem pullsOf_length_le {ρ : Type} (Read : ρ → Nat → Option (ReadResult × ρ)) (B : Nat) :
    ∀ (n : Nat) (rd : ρ), (pullsOf Read B n rd).length ≤ n := by
  intro n
  induction n with
  | zero => intro rd; simp [pullsOf]
  | succ m ih =>
    intro rd
    simp only [pullsOf]
    cases hr : Read rd B with
    | none => simp
    | some pr =>
      obtain ⟨res, rd1⟩ := pr
      have := ih rd1
      simp only [List.length_cons]
      omega

theorem pullsOf_take {ρ : Type} (Read : ρ → Nat → Option (ReadResult × ρ)) (B : Nat) :
    ∀ (n k : Nat) (rd : ρ), k ≤ n → (pullsOf Read B n rd).take k = pullsOf Read B k rd := by
  intro n
  induction n with
  | zero =>
    intro k rd hk
    have hk0 : k = 0 := by omega
    subst hk0
    simp [pullsOf]
  | succ m ih =>
    intro k rd hk
    cases k with
    | zero => simp [pullsOf]
    | succ j =>
      simp only [pullsOf]
      cases hr : Read rd B with
      | none => simp
      | some pr =>
        obtain ⟨res, rd1⟩ := pr
        simp only [List.take_succ_cons]
        rw [ih j rd1 (by omega)]

/-- TryReadAll over any reader is the scripted run over the results of the reader's pulls. -/
theorem TryReadAll_eq_readAll {ρ : Type} (Read : ρ → Nat → Option (ReadResult × ρ))
    (S L fuel : Nat) (rd : ρ) :
    (NewTextFileChecker S L).TryReadAll Read fuel rd =
      readAll S L (pullsOf Read (16 * 1024) fuel rd) := by
  rw [readAll_eq_stateOf]
  exact tryReadAllLoop_eq_runFrom Read (newChecker S L true) fuel rd (stateOf [])

theorem readAll_success_counts (S L : Nat) (chunks : List (List Nat)) (d : List Nat)
    (post : List ReadResult) (sz : TextFileSize)
    (h : readAll S L (plainPulls chunks ++ { data := d, err := Error.EOF } :: post) =
      some (sz, none)) :
    sz.Size = (chunks.flatten ++ d).length ∧
    sz.LineCount = lineCountOf (chunks.flatten ++ d) ∧
    (chunks.flatten ++ d = [] → sz.LineCount = 0) := by
  rw [readAll_eq_stateOf] at h
  have hw := runFrom_success S L chunks d post sz [] (by simp) (by simp [newlines]) h
  rw [runFrom_within S L [] chunks d post hw.1 hw.2] at h
  simp only [List.nil_append, Option.some.injEq, Prod.mk.injEq, and_true] at h
  subst h
  refine ⟨rfl, rfl, ?_⟩
  intro hnil
  simp [hnil, lineCountOf, newlines]

theorem readAll_limit_crossed_kind (S L : Nat) (chunks : List (List Nat)) (d : List Nat)
    (post : List ReadResult)
    (hover : (chunks.flatten ++ d).length > S ∨ lineCountOf (chunks.flatten ++ d) > L) :
    ∃ sz e, readAll S L (plainPulls chunks ++ { data := d, err := Error.EOF } :: post) =
        some (sz, some e) ∧
      e.Kind ≠ TextFileErrorKind.TextFileReadError ∧
      ∀ k, k ≤ chunks.length →
        (delivered (chunks ++ [d]) k).length ≤ S →
        newlines (delivered (chunks ++ [d]) k) ≤ L →
        ((delivered (chunks ++ [d]) (k + 1)).length > S →
          e.Kind = TextFileErrorKind.TextFileExceededByteSizeLimit) ∧
        ((delivered (chunks ++ [d]) (k + 1)).length ≤ S →
          (newlines (delivered (chunks ++ [d]) (k + 1)) > L ∨
            (k = chunks.length ∧ lineCountOf (chunks.flatten ++ d) > L)) →
          e.Kind = TextFileErrorKind.TextFileExceededLineCountLimit) := by
  have h := runFrom_over S L chunks d post [] (by simp) (by simp [newlines])
    (by simpa only [List.nil_append] using hover)
  simpa only [List.nil_append, readAll_eq_stateOf] using h

theorem readAll_within_limits (S L : Nat) (chunks : List (List Nat)) (d : List Nat)
    (post : List ReadResult)
    (hS : (chunks.flatten ++ d).length ≤ S) (hL : lineCountOf (chunks.flatten ++ d) ≤ L) :
    readAll S L (plainPulls chunks ++ { data := d, err := Error.EOF } :: post) =
      some ({ Size := (chunks.flatten ++ d).length,
              LineCount := lineCountOf (chunks.flatten ++ d) }, none) := by
  have h := runFrom_within S L [] chunks d post (by simpa using hS) (by simpa using hL)
  simpa only [List.nil_append, readAll_eq_stateOf] using h

theorem readAll_chunk_precedence (S L : Nat) (pre : List (List Nat)) (d : List Nat) (x : Nat)
    (post : List ReadResult)
    (hS : pre.flatten.length ≤ S) (hL : newlines pre.flatten ≤ L) :
    ∃ sz e, readAll S L (plainPulls pre ++ { data := d, err := Error.other x } :: post) =
        some (sz, some e) ∧
      e.Kind =
        if (pre.flatten ++ d).length > S then TextFileErrorKind.TextFileExceededByteSizeLimit
        else if newlines (pre.flatten ++ d) > L then
          TextFileErrorKind.TextFileExceededLineCountLimit
        else TextFileErrorKind.TextFileReadError := by
  rw [readAll_eq_stateOf, runFrom_error_pull S L pre d x post hS hL,
    iteration_stateOf S L pre.flatten d (Error.other x) hS hL]
  by_cases h1 : (pre.flatten ++ d).length > S
  · rw [if_pos h1, if_pos h1]; exact ⟨_, _, rfl, rfl⟩
  · by_cases h2 : newlines (pre.flatten ++ d) > L
    · rw [if_neg h1, if_pos h2, if_neg h1, if_pos h2]; exact ⟨_, _, rfl, rfl⟩
    · rw [if_neg h1, if_neg h2, if_neg h1, if_neg h2]; exact ⟨_, _, rfl, rfl⟩

theorem readAll_byte_limit (S L : Nat) (chunks : List (List Nat))
    (d : List Nat) (post : List ReadResult)
    (hlen : (chunks.flatten ++ d).length > S)
    (hlines : ∀ k, k ≤ chunks.length → (delivered chunks k).length ≤ S →
      newlines (delivered chunks k) ≤ L) :
    ∃ sz e, readAll S L (plainPulls chunks ++ { data := d, err := Error.EOF } :: post) =
        some (sz, some e) ∧
      e.Kind = TextFileErrorKind.TextFileExceededByteSizeLimit ∧
      e.BytesRead ≥ S + 1 ∧ e.IOError = Error.nil := by
  have h := runFrom_byteLimit S L chunks d post [] (by simp) (by simp [newlines])
    (by simpa only [List.nil_append] using hlen)
    (by simpa only [List.nil_append] using hlines)
  simpa only [readAll_eq_stateOf] using h

/-! ## The claims

In the statements a byte source is any reader `Read` with a starting state `rd`; the
hypothesis `pullsOf Read (16 * 1024) fuel rd = ...` says what its first `fuel` pulls return
when given the 16 KiB scratch buffer, and `fuel` is then enough for the loop. -/

/-- C1: a byte source delivers its input in any chunking (empty chunks included) with nil
errors and then signals end-of-stream; if TryReadAll returns no failure, the returned Size is
the number of bytes delivered and the returned LineCount is the number of newline bytes plus
one for a non-empty input not ending in a newline; an empty input gives zero lines. -/
theorem tryReadAll_success_counts {ρ : Type} (Read : ρ → Nat → Option (ReadResult × ρ))
    (rd : ρ) (fuel S L : Nat) (chunks : List (List Nat)) (d : List Nat)
    (post : List ReadResult) (sz : TextFileSize)
    (hpulls : pullsOf Read (16 * 1024) fuel rd =
      plainPulls chunks ++ { data := d, err := Error.EOF } :: post)
    (h : (NewTextFileChecker S L).TryReadAll Read fuel rd = some (sz, none)) :
    sz.Size = (chunks.flatten ++ d).length ∧
    sz.LineCount = lineCountOf (chunks.flatten ++ d) ∧
    (chunks.flatten ++ d = [] → sz.LineCount = 0) := by
  rw [TryReadAll_eq_readAll, hpulls] at h
  exact readAll_success_counts S L chunks d post sz h

theorem tryReadAll_success_counts_witness :
    pullsOf FakeReader.Read (16 * 1024) 5
        (NewFakeReader [{ Data := [97, 98, 10], Err := Error.nil },
          { Data := [], Err := Error.nil }, { Data := [99, 100], Err := Error.nil }]) =
      plainPulls [[97, 98, 10], [], [99, 100]] ++
        { data := [], err := Error.EOF } :: [{ data := [], err := Error.EOF }] ∧
    (NewTextFileChecker 100 100).TryReadAll FakeReader.Read 5
        (NewFakeReader [{ Data := [97, 98, 10], Err := Error.nil },
          { Data := [], Err := Error.nil }, { Data := [99, 100], Err := Error.nil }]) =
      some ({ Size := 5, LineCount := 2 }, none) ∧
    ((5 : Nat) = ([[97, 98, 10], [], [99, 100]].flatten ++ []).length ∧
     (2 : Nat) = lineCountOf ([[97, 98, 10], [], [99, 100]].flatten ++ []) ∧
     ([[97, 98, 10], [], [99, 100]].flatten ++ [] = [] → (2 : Nat) = 0)) :=
  ⟨by decide, by decide,
   tryReadAll_success_counts FakeReader.Read
     (NewFakeReader [{ Data := [97, 98, 10], Err := Error.nil },
       { Data := [], Err := Error.nil }, { Data := [99, 100], Err := Error.nil }])
     5 100 100 [[97, 98, 10], [], [99, 100]] [] [{ data := [], err := Error.EOF }]
     { Size := 5, LineCount := 2 } (by decide) (by decide)⟩

/-- C2, at the empty file: the test generator may draw the empty contents, for which the
event list is empty; TryReadAll over the FakeReader then returns a nil error with LineCount 0
(for all limits), while `lines` as computed by `fileGen` has length 1. -/
theorem fileGen_empty_contents_line_count (S L fuel : Nat) :
    (NewTextFileChecker S L).TryReadAll FakeReader.Read (fuel + 1) (NewFakeReader []) =
      some ({ Size := 0, LineCount := 0 }, none) ∧
    (fileGenLines []).length = 1 := by
  constructor
  · simp [TextFileChecker.TryReadAll, checker.tryReadAll, checker.tryReadAllLoop,
      FakeReader.Read, NewFakeReader, NewTextFileChecker, newChecker, iteration, afterChunk]
  · decide

/-- C3: an error-free byte source (chunks with nil errors, then end-of-stream) whose input is
longer than the size limit or has more lines than the line limit makes TryReadAll fail, never
with the read-error kind.  At the earliest pull `k` where a limit is crossed (both counts
within the limits before it), the kind is byte-size-exceeded if the running byte count exceeds
the size limit after it, and otherwise line-count-exceeded, be it by the newline bytes
delivered or, at the last pull, by the increment for the unterminated final line.  It holds
for all limits, positive or not. -/
theorem tryReadAll_limit_crossed_kind {ρ : Type} (Read : ρ → Nat → Option (ReadResult × ρ))
    (rd : ρ) (fuel S L : Nat) (chunks : List (List Nat)) (d : List Nat)
    (post : List ReadResult)
    (hpulls : pullsOf Read (16 * 1024) fuel rd =
      plainPulls chunks ++ { data := d, err := Error.EOF } :: post)
    (hover : (chunks.flatten ++ d).length > S ∨ lineCountOf (chunks.flatten ++ d) > L) :
    ∃ sz e, (NewTextFileChecker S L).TryReadAll Read fuel rd = some (sz, some e) ∧
      e.Kind ≠ TextFileErrorKind.TextFileReadError ∧
      ∀ k, k ≤ chunks.length →
        (delivered (chunks ++ [d]) k).length ≤ S →
        newlines (delivered (chunks ++ [d]) k) ≤ L →
        ((delivered (chunks ++ [d]) (k + 1)).length > S →
          e.Kind = TextFileErrorKind.TextFileExceededByteSizeLimit) ∧
        ((delivered (chunks ++ [d]) (k + 1)).length ≤ S →
          (newlines (delivered (chunks ++ [d]) (k + 1)) > L ∨
            (k = chunks.length ∧ lineCountOf (chunks.flatten ++ d) > L)) →
          e.Kind = TextFileErrorKind.TextFileExceededLineCountLimit) := by
  rw [TryReadAll_eq_readAll, hpulls]
  exact readAll_limit_crossed_kind S L chunks d post hover

theorem tryReadAll_limit_crossed_kind_witness :
    pullsOf FakeReader.Read (16 * 1024) 3
        (NewFakeReader [{ Data := [97, 10], Err := Error.nil },
          { Data := [98, 10, 99, 10], Err := Error.nil }]) =
      plainPulls [[97, 10], [98, 10, 99, 10]] ++ { data := [], err := Error.EOF } :: [] ∧
    (([[97, 10], [98, 10, 99, 10]].flatten ++ []).length > 5 ∨
      lineCountOf ([[97, 10], [98, 10, 99, 10]].flatten ++ []) > 2) ∧
    ∃ sz e, (NewTextFileChecker 5 2).TryReadAll FakeReader.Read 3
          (NewFakeReader [{ Data := [97, 10], Err := Error.nil },
            { Data := [98, 10, 99, 10], Err := Error.nil }]) = some (sz, some e) ∧
      e.Kind ≠ TextFileErrorKind.TextFileReadError ∧
      ∀ k, k ≤ [[97, 10], [98, 10, 99, 10]].length →
        (delivered ([[97, 10], [98, 10, 99, 10]] ++ [[]]) k).length ≤ 5 →
        newlines (delivered ([[97, 10], [98, 10, 99, 10]] ++ [[]]) k) ≤ 2 →
        ((delivered ([[97, 10], [98, 10, 99, 10]] ++ [[]]) (k + 1)).length > 5 →
          e.Kind = TextFileErrorKind.TextFileExceededByteSizeLimit) ∧
        ((delivered ([[97, 10], [98, 10, 99, 10]] ++ [[]]) (k + 1)).length ≤ 5 →
          (newlines (delivered ([[97, 10], [98, 10, 99, 10]] ++ [[]]) (k + 1)) > 2 ∨
            (k = [[97, 10], [98, 10, 99, 10]].length ∧
              lineCountOf ([[97, 10], [98, 10, 99, 10]].flatten ++ []) > 2)) →
          e.Kind = TextFileErrorKind.TextFileExceededLineCountLimit) :=
  ⟨by decide, by decide,
   tryReadAll_limit_crossed_kind FakeReader.Read
     (NewFakeReader [{ Data := [97, 10], Err := Error.nil },
       { Data := [98, 10, 99, 10], Err := Error.nil }])
     3 5 2 [[97, 10], [98, 10, 99, 10]] [] [] (by decide) (by decide)⟩

/-- C4: equality is not a violation.  An error-free byte source whose input has at most
`S` bytes and at most `L` lines (exactly `S` bytes or exactly `L` lines included) makes
TryReadAll succeed with the exact byte count and line count. -/
theorem tryReadAll_within_limits_succeeds {ρ : Type}
    (Read : ρ → Nat → Option (ReadResult × ρ)) (rd : ρ) (fuel S L : Nat)
    (chunks : List (List Nat)) (d : List Nat) (post : List ReadResult)
    (hpulls : pullsOf Read (16 * 1024) fuel rd =
      plainPulls chunks ++ { data := d, err := Error.EOF } :: post)
    (hS : (chunks.flatten ++ d).length ≤ S) (hL : lineCountOf (chunks.flatten ++ d) ≤ L) :
    (NewTextFileChecker S L).TryReadAll Read fuel rd =
      some ({ Size := (chunks.flatten ++ d).length,
              LineCount := lineCountOf (chunks.flatten ++ d) }, none) := by
  rw [TryReadAll_eq_readAll, hpulls]
  exact readAll_within_limits S L chunks d post hS hL

theorem tryReadAll_within_limits_succeeds_witness :
    pullsOf FakeReader.Read (16 * 1024) 3
        (NewFakeReader [{ Data := [97, 98, 10], Err := Error.nil },
          { Data := [99, 100], Err := Error.nil }]) =
      plainPulls [[97, 98, 10], [99, 100]] ++ { data := [], err := Error.EOF } :: [] ∧
    ([[97, 98, 10], [99, 100]].flatten ++ []).length ≤ 5 ∧
    lineCountOf ([[97, 98, 10], [99, 100]].flatten ++ []) ≤ 2 ∧
    (NewTextFileChecker 5 2).TryReadAll FakeReader.Read 3
        (NewFakeReader [{ Data := [97, 98, 10], Err := Error.nil },
          { Data := [99, 100], Err := Error.nil }]) =
      some ({ Size := ([[97, 98, 10], [99, 100]].flatten ++ []).length,
              LineCount := lineCountOf ([[97, 98, 10], [99, 100]].flatten ++ []) }, none) :=
  ⟨by decide, by decide, by decide,
   tryReadAll_within_limits_succeeds FakeReader.Read
     (NewFakeReader [{ Data := [97, 98, 10], Err := Error.nil },
       { Data := [99, 100], Err := Error.nil }])
     3 5 2 [[97, 98, 10], [99, 100]] [] [] (by decide) (by decide) (by decide)⟩

/-- C5: precedence within one chunk.  A pull that delivers bytes `d` together with a non-EOF
error, reached after error-free pulls that crossed no limit, makes TryReadAll fail with kind
byte-size-exceeded if the running byte count then exceeds the size limit, otherwise with kind
line-count-exceeded if the running line count then exceeds the line limit, and with kind
read-error only when neither limit is exceeded.  (It holds for a pull of zero bytes as well,
where no limit can be exceeded.) -/
theorem tryReadAll_chunk_precedence {ρ : Type} (Read : ρ → Nat → Option (ReadResult × ρ))
    (rd : ρ) (fuel S L : Nat) (pre : List (List Nat)) (d : List Nat) (x : Nat)
    (post : List ReadResult)
    (hpulls : pullsOf Read (16 * 1024) fuel rd =
      plainPulls pre ++ { data := d, err := Error.other x } :: post)
    (hS : pre.flatten.length ≤ S) (hL : newlines pre.flatten ≤ L) :
    ∃ sz e, (NewTextFileChecker S L).TryReadAll Read fuel rd = some (sz, some e) ∧
      e.Kind =
        if (pre.flatten ++ d).length > S then TextFileErrorKind.TextFileExceededByteSizeLimit
        else if newlines (pre.flatten ++ d) > L then
          TextFileErrorKind.TextFileExceededLineCountLimit
        else TextFileErrorKind.TextFileReadError := by
  rw [TryReadAll_eq_readAll, hpulls]
  exact readAll_chunk_precedence S L pre d x post hS hL

theorem tryReadAll_chunk_precedence_witness :
    pullsOf FakeReader.Read (16 * 1024) 2
        (NewFakeReader [{ Data := [97, 10], Err := Error.nil },
          { Data := [98, 10, 99, 10], Err := Error.other 7 }]) =
      plainPulls [[97, 10]] ++ { data := [98, 10, 99, 10], err := Error.other 7 } :: [] ∧
    [[97, 10]].flatten.length ≤ 5 ∧
    newlines [[97, 10]].flatten ≤ 2 ∧
    ∃ sz e, (NewTextFileChecker 5 2).TryReadAll FakeReader.Read 2
          (NewFakeReader [{ Data := [97, 10], Err := Error.nil },
            { Data := [98, 10, 99, 10], Err := Error.other 7 }]) = some (sz, some e) ∧
      e.Kind =
        if ([[97, 10]].flatten ++ [98, 10, 99, 10]).length > 5 then
          TextFileErrorKind.TextFileExceededByteSizeLimit
        else if newlines ([[97, 10]].flatten ++ [98, 10, 99, 10]) > 2 then
          TextFileErrorKind.TextFileExceededLineCountLimit
        else TextFileErrorKind.TextFileReadError :=
  ⟨by decide, by decide, by decide,
   tryReadAll_chunk_precedence FakeReader.Read
     (NewFakeReader [{ Data := [97, 10], Err := Error.nil },
       { Data := [98, 10, 99, 10], Err := Error.other 7 }])
     2 5 2 [[97, 10]] [98, 10, 99, 10] 7 [] (by decide) (by decide) (by decide)⟩

/-- C6, as stated, fails: under size limit 1, a FakeReader record of two bytes with an
attached error gives a failure of kind byte-size-exceeded whose IOError is that error, not
nil. -/
theorem limit_failure_carries_ioError :
    ∃ sz e, (NewTextFileChecker 1 5).TryReadAll FakeReader.Read 1
          (NewFakeReader [{ Data := [97, 98], Err := Error.other 7 }]) = some (sz, some e) ∧
      e.Kind = TextFileErrorKind.TextFileExceededByteSizeLimit ∧
      e.IOError = Error.other 7 ∧ e.IOError ≠ Error.nil :=
  ⟨{ Size := 2, LineCount := 0 },
   { Kind := TextFileErrorKind.TextFileExceededByteSizeLimit, BytesRead := 2, LinesRead := 0,
     IOError := Error.other 7 }, by decide, rfl, rfl, by decide⟩

/-- C6, amended: every failure is produced at one pull of the byte source, the pull number
`k` (counted from zero; `k` pulls give no result, `k + 1` pulls give the failure), and its
IOError is the error returned by that pull, with io.EOF replaced by nil.  So a failure of kind
read-error always has a non-nil IOError, and a failure of kind byte-size-exceeded or
line-count-exceeded has a nil IOError exactly when the pull at which the limit was crossed
carried no error other than end-of-stream. -/
theorem tryReadAll_failure_ioError {ρ : Type} (Read : ρ → Nat → Option (ReadResult × ρ))
    (rd : ρ) (fuel S L : Nat) (sz : TextFileSize) (e : TextFileLimitError)
    (h : (NewTextFileChecker S L).TryReadAll Read fuel rd = some (sz, some e)) :
    (e.Kind = TextFileErrorKind.TextFileReadError → e.IOError ≠ Error.nil) ∧
    ∃ k p, (pullsOf Read (16 * 1024) fuel rd)[k]? = some p ∧
      (NewTextFileChecker S L).TryReadAll Read k rd = none ∧
      (NewTextFileChecker S L).TryReadAll Read (k + 1) rd = some (sz, some e) ∧
      e.IOError = (if p.err ≠ Error.EOF then p.err else Error.nil) := by
  rw [TryReadAll_eq_readAll, readAll_eq_stateOf] at h
  obtain ⟨k, p, st1, hk, hnone, hsome, hit⟩ := runFrom_some_pull _ _ _ _ h
  have hprops := iteration_ret_some _ st1 p sz e hit
  have hklt : k < (pullsOf Read (16 * 1024) fuel rd).length := by
    rcases Nat.lt_or_ge k (pullsOf Read (16 * 1024) fuel rd).length with hlt | hge
    · exact hlt
    · rw [List.getElem?_eq_none hge] at hk; cases hk
  have hfuel := pullsOf_length_le Read (16 * 1024) fuel rd
  refine ⟨hprops.2.2.2, k, p, hk, ?_, ?_, hprops.2.2.1⟩
  · rw [TryReadAll_eq_readAll, readAll_eq_stateOf,
      ← pullsOf_take Read (16 * 1024) fuel k rd (by omega)]
    exact hnone
  · rw [TryReadAll_eq_readAll, readAll_eq_stateOf,
      ← pullsOf_take Read (16 * 1024) fuel (k + 1) rd (by omega)]
    exact hsome

theorem tryReadAll_failure_ioError_witness :
    (NewTextFileChecker 10 1).TryReadAll FakeReader.Read 3
        (NewFakeReader [{ Data := [97], Err := Error.nil },
          { Data := [10, 10], Err := Error.other 3 }]) =
      some ({ Size := 3, LineCount := 2 },
        some { Kind := TextFileErrorKind.TextFileExceededLineCountLimit, BytesRead := 3,
               LinesRead := 2, IOError := Error.other 3 }) ∧
    ((TextFileErrorKind.TextFileExceededLineCountLimit = TextFileErrorKind.TextFileReadError →
        Error.other 3 ≠ Error.nil) ∧
     ∃ k p, (pullsOf FakeReader.Read (16 * 1024) 3
          (NewFakeReader [{ Data := [97], Err := Error.nil },
            { Data := [10, 10], Err := Error.other 3 }]))[k]? = some p ∧
        (NewTextFileChecker 10 1).TryReadAll FakeReader.Read k
          (NewFakeReader [{ Data := [97], Err := Error.nil },
            { Data := [10, 10], Err := Error.other 3 }]) = none ∧
        (NewTextFileChecker 10 1).TryReadAll FakeReader.Read (k + 1)
          (NewFakeReader [{ Data := [97], Err := Error.nil },
            { Data := [10, 10], Err := Error.other 3 }]) =
          some ({ Size := 3, LineCount := 2 },
            some { Kind := TextFileErrorKind.TextFileExceededLineCountLimit, BytesRead := 3,
                   LinesRead := 2, IOError := Error.other 3 }) ∧
        Error.other 3 = (if p.err ≠ Error.EOF then p.err else Error.nil)) :=
  ⟨by decide,
   tryReadAll_failure_ioError FakeReader.Read
     (NewFakeReader [{ Data := [97], Err := Error.nil },
       { Data := [10, 10], Err := Error.other 3 }])
     3 10 1 { Size := 3, LineCount := 2 }
     { Kind := TextFileErrorKind.TextFileExceededLineCountLimit, BytesRead := 3,
       LinesRead := 2, IOError := Error.other 3 } (by decide)⟩

/-- C7, at a failing input: with size limit 10 and line limit 1, a FakeReader record with the
four bytes `a\nb\n` gives a failure of kind line-count-exceeded whose BytesRead is 4, which is
not higher than the size limit. -/
theorem line_failure_bytesRead_not_over_limit :
    (NewTextFileChecker 10 1).TryReadAll FakeReader.Read 1
        (NewFakeReader [{ Data := [97, 10, 98, 10], Err := Error.nil }]) =
      some ({ Size := 4, LineCount := 2 },
        some { Kind := TextFileErrorKind.TextFileExceededLineCountLimit, BytesRead := 4,
               LinesRead := 2, IOError := Error.nil }) ∧
    ¬ (4 > 10) := by
  decide

/-- C8: for every reader and every failure returned by TryReadAll, the count matching the
failure kind has crossed its limit: BytesRead exceeds the size limit when the kind is
byte-size-exceeded, LinesRead exceeds the line limit when the kind is line-count-exceeded. -/
theorem tryReadAll_failure_count_crossed {ρ : Type}
    (Read : ρ → Nat → Option (ReadResult × ρ)) (S L fuel : Nat) (rd : ρ) (sz : TextFileSize)
    (e : TextFileLimitError)
    (h : (NewTextFileChecker S L).TryReadAll Read fuel rd = some (sz, some e)) :
    (e.Kind = TextFileErrorKind.TextFileExceededByteSizeLimit → e.BytesRead > S) ∧
    (e.Kind = TextFileErrorKind.TextFileExceededLineCountLimit → e.LinesRead > L) := by
  obtain ⟨st1, res, hit⟩ := tryReadAllLoop_some Read _ _ fuel rd _ h
  have hprops := iteration_ret_some _ st1 res sz e hit
  exact ⟨hprops.1, hprops.2.1⟩

theorem tryReadAll_failure_count_crossed_witness :
    (NewTextFileChecker 3 5).TryReadAll FakeReader.Read 4
        (NewFakeReader [{ Data := [97, 98], Err := Error.nil },
          { Data := [99, 100], Err := Error.nil }]) =
      some ({ Size := 4, LineCount := 0 },
        some { Kind := TextFileErrorKind.TextFileExceededByteSizeLimit, BytesRead := 4,
               LinesRead := 0, IOError := Error.nil }) ∧
    ((TextFileErrorKind.TextFileExceededByteSizeLimit =
        TextFileErrorKind.TextFileExceededByteSizeLimit → 4 > 3) ∧
     (TextFileErrorKind.TextFileExceededByteSizeLimit =
        TextFileErrorKind.TextFileExceededLineCountLimit → 0 > 5)) :=
  ⟨by decide,
   tryReadAll_failure_count_crossed FakeReader.Read 3 5 4
     (NewFakeReader [{ Data := [97, 98], Err := Error.nil },
       { Data := [99, 100], Err := Error.nil }])
     { Size := 4, LineCount := 0 }
     { Kind := TextFileErrorKind.TextFileExceededByteSizeLimit, BytesRead := 4,
       LinesRead := 0, IOError := Error.nil } (by decide)⟩

/-- C9, as stated, fails: a 50-byte input delivered without errors by a FakeReader under size
limit 10 and line limit 1, whose first record is two newline bytes, fails with kind
line-count-exceeded and BytesRead 2, not with kind byte-size-exceeded. -/
theorem long_input_fails_on_line_limit :
    ([10, 10] ++ List.replicate 48 97).length = 50 ∧
    (NewTextFileChecker 10 1).TryReadAll FakeReader.Read 3
        (NewFakeReader [{ Data := [10, 10], Err := Error.nil },
          { Data := List.replicate 48 97, Err := Error.nil }]) =
      some ({ Size := 2, LineCount := 2 },
        some { Kind := TextFileErrorKind.TextFileExceededLineCountLimit, BytesRead := 2,
               LinesRead := 2, IOError := Error.nil }) := by
  decide

/-- C9, amended: an input longer than the size limit, delivered without errors, makes
TryReadAll fail with kind byte-size-exceeded, BytesRead at least the size limit plus one and
a nil IOError, whatever the line content of the chunk that crosses the size limit and of the
chunks after it, provided the newline bytes of the chunks delivered while the running byte
count is still within the size limit do not exceed the line limit. -/
theorem tryReadAll_byte_limit_short_circuit {ρ : Type}
    (Read : ρ → Nat → Option (ReadResult × ρ)) (rd : ρ) (fuel S L : Nat)
    (chunks : List (List Nat)) (d : List Nat) (post : List ReadResult)
    (hpulls : pullsOf Read (16 * 1024) fuel rd =
      plainPulls chunks ++ { data := d, err := Error.EOF } :: post)
    (hlen : (chunks.flatten ++ d).length > S)
    (hlines : ∀ k, k ≤ chunks.length → (delivered chunks k).length ≤ S →
      newlines (delivered chunks k) ≤ L) :
    ∃ sz e, (NewTextFileChecker S L).TryReadAll Read fuel rd = some (sz, some e) ∧
      e.Kind = TextFileErrorKind.TextFileExceededByteSizeLimit ∧
      e.BytesRead ≥ S + 1 ∧ e.IOError = Error.nil := by
  rw [TryReadAll_eq_readAll, hpulls]
  exact readAll_byte_limit S L chunks d post hlen hlines

theorem tryReadAll_byte_limit_short_circuit_witness :
    pullsOf FakeReader.Read (16 * 1024) 3
        (NewFakeReader [{ Data := [97, 10, 98], Err := Error.nil },
          { Data := List.replicate 47 10, Err := Error.nil }]) =
      plainPulls [[97, 10, 98], List.replicate 47 10] ++
        { data := [], err := Error.EOF } :: [] ∧
    ([[97, 10, 98], List.replicate 47 10].flatten ++ []).length > 10 ∧
    (∀ k, k ≤ [[97, 10, 98], List.replicate 47 10].length →
      (delivered [[97, 10, 98], List.replicate 47 10] k).length ≤ 10 →
      newlines (delivered [[97, 10, 98], List.replicate 47 10] k) ≤ 1) ∧
    ∃ sz e, (NewTextFileChecker 10 1).TryReadAll FakeReader.Read 3
          (NewFakeReader [{ Data := [97, 10, 98], Err := Error.nil },
            { Data := List.replicate 47 10, Err := Error.nil }]) = some (sz, some e) ∧
      e.Kind = TextFileErrorKind.TextFileExceededByteSizeLimit ∧
      e.BytesRead ≥ 10 + 1 ∧ e.IOError = Error.nil :=
  ⟨by decide, by decide, by decide,
   tryReadAll_byte_limit_short_circuit FakeReader.Read
     (NewFakeReader [{ Data := [97, 10, 98], Err := Error.nil },
       { Data := List.replicate 47 10, Err := Error.nil }])
     3 10 1 [[97, 10, 98], List.replicate 47 10] [] [] (by decide) (by decide) (by decide)⟩

/-- C10: take two byte sources such that the pulls of the second are the pulls of the first
with any number of no-op pulls (zero bytes, nil error, no end-of-stream) inserted at any
positions; for a FakeReader these are records with empty Data and nil Err.  TryReadAll has
the same outcome on both: the same success or failure, with the same kind, counts and
IOError. -/
theorem tryReadAll_noop_insertion {ρ σ : Type} (Read1 : ρ → Nat → Option (ReadResult × ρ))
    (Read2 : σ → Nat → Option (ReadResult × σ)) (rd1 : ρ) (rd2 : σ) (fuel1 fuel2 S L : Nat)
    (h : NoopInsertion (pullsOf Read1 (16 * 1024) fuel1 rd1)
      (pullsOf Read2 (16 * 1024) fuel2 rd2)) :
    (NewTextFileChecker S L).TryReadAll Read2 fuel2 rd2 =
      (NewTextFileChecker S L).TryReadAll Read1 fuel1 rd1 := by
  rw [TryReadAll_eq_readAll, TryReadAll_eq_readAll, readAll_eq_stateOf, readAll_eq_stateOf]
  exact runFrom_noopInsertion _ h _

theorem tryReadAll_noop_insertion_witness :
    NoopInsertion
      (pullsOf FakeReader.Read (16 * 1024) 3
        (NewFakeReader [{ Data := [97, 10], Err := Error.nil },
          { Data := [98], Err := Error.nil }]))
      (pullsOf FakeReader.Read (16 * 1024) 6
        (NewFakeReader [{ Data := [], Err := Error.nil }, { Data := [97, 10], Err := Error.nil },
          { Data := [], Err := Error.nil }, { Data := [], Err := Error.nil },
          { Data := [98], Err := Error.nil }])) ∧
    (NewTextFileChecker 5 5).TryReadAll FakeReader.Read 6
        (NewFakeReader [{ Data := [], Err := Error.nil }, { Data := [97, 10], Err := Error.nil },
          { Data := [], Err := Error.nil }, { Data := [], Err := Error.nil },
          { Data := [98], Err := Error.nil }]) =
      (NewTextFileChecker 5 5).TryReadAll FakeReader.Read 3
        (NewFakeReader [{ Data := [97, 10], Err := Error.nil },
          { Data := [98], Err := Error.nil }]) :=
  have hins : NoopInsertion
      (pullsOf FakeReader.Read (16 * 1024) 3
        (NewFakeReader [{ Data := [97, 10], Err := Error.nil },
          { Data := [98], Err := Error.nil }]))
      (pullsOf FakeReader.Read (16 * 1024) 6
        (NewFakeReader [{ Data := [], Err := Error.nil }, { Data := [97, 10], Err := Error.nil },
          { Data := [], Err := Error.nil }, { Data := [], Err := Error.nil },
          { Data := [98], Err := Error.nil }])) :=
    NoopInsertion.add (NoopInsertion.keep _ (NoopInsertion.add (NoopInsertion.add
      (NoopInsertion.keep _ (NoopInsertion.keep _ NoopInsertion.empty)))))
  ⟨hins, tryReadAll_noop_insertion FakeReader.Read FakeReader.Read _ _ 3 6 5 5 hins⟩

/-! ## Further facts about scripted runs -/

/-- A pull with end-of-stream always ends the loop. -/
theorem iteration_eof_ret (c : checker) (st : LoopState) (d : List Nat) :
    ∃ out, iteration c st { data := d, err := Error.EOF } = Step.ret out := by
  simp only [iteration, afterChunk]
  split_ifs <;> exact ⟨_, rfl⟩

/-- Bytes delivered together with end-of-stream are treated like the same bytes delivered with
a nil error and followed by a pull of zero bytes with end-of-stream. -/
theorem runFrom_eof_split (c : checker) (st : LoopState) (d : List Nat)
    (post1 post2 : List ReadResult) :
    runFrom c st ({ data := d, err := Error.EOF } :: post1) =
      runFrom c st ({ data := d, err := Error.nil } :: { data := [], err := Error.EOF } ::
        post2) := by
  obtain ⟨⟨s0, l0⟩, lb⟩ := st
  simp only [runFrom_cons, iteration, afterChunk, makeError, ne_eq, reduceCtorEq,
    not_false_eq_true, if_true, not_true_eq_false, if_false, true_or, or_true,
    List.length_nil, gt_iff_lt, lt_irrefl]
  split_ifs <;> simp_all <;> split_ifs <;> first | rfl | omega

theorem runFrom_append_congr (c : checker) (a b : List ReadResult)
    (h : ∀ st, runFrom c st a = runFrom c st b) :
    ∀ (pre : List ReadResult) (st : LoopState),
      runFrom c st (pre ++ a) = runFrom c st (pre ++ b) := by
  intro pre
  induction pre with
  | nil => intro st; exact h st
  | cons p ps ih =>
    intro st
    simp only [List.cons_append, runFrom_cons]
    cases iteration c st p with
    | ret o => rfl
    | next st1 => exact ih st1

/-- A result, once produced, does not depend on the pulls that would follow. -/
theorem runFrom_append_of_some (c : checker) (out : TextFileSize × Option TextFileLimitError)
    (qs : List ReadResult) :
    ∀ (ps : List ReadResult) (st : LoopState), runFrom c st ps = some out →
      runFrom c st (ps ++ qs) = some out := by
  intro ps
  induction ps with
  | nil => intro st h; simp [runFrom_nil] at h
  | cons p ps ih =>
    intro st h
    rw [runFrom_cons] at h
    simp only [List.cons_append, runFrom_cons]
    cases hi : iteration c st p with
    | ret o => simpa [hi] using h
    | next st1 =>
      simp only [hi] at h ⊢
      exact ih st1 h

theorem allData_cons (p : ReadResult) (ps : List ReadResult) :
    allData (p :: ps) = p.data ++ allData ps := by
  simp [allData]

theorem allData_plainPulls_append (chunks : List (List Nat)) (rest : List ReadResult) :
    allData (plainPulls chunks ++ rest) = chunks.flatten ++ allData rest := by
  induction chunks with
  | nil => simp [plainPulls]
  | cons c0 cs ih =>
    simp only [plainPulls, List.map_cons, List.cons_append, allData_cons, List.flatten_cons,
      List.append_assoc] at ih ⊢
    rw [ih]

theorem lineCountOf_le (inp : List Nat) : lineCountOf inp ≤ newlines inp + 1 := by
  rw [lineCountOf_eq]; split <;> omega

/-- The line count reported by a failure is at most the number of newline bytes of the bytes
pulled, plus one. -/
theorem runFrom_linesRead_le (S L : Nat) (sz : TextFileSize) (e : TextFileLimitError) :
    ∀ (ps : List ReadResult) (inp : List Nat), inp.length ≤ S → newlines inp ≤ L →
      runFrom (newChecker S L true) (stateOf inp) ps = some (sz, some e) →
      e.LinesRead ≤ newlines (inp ++ allData ps) + 1 := by
  intro ps
  induction ps with
  | nil => intro inp _ _ h; simp [runFrom_nil] at h
  | cons p ps ih =>
    intro inp hS hL h
    obtain ⟨d, pe⟩ := p
    rw [runFrom_cons, iteration_stateOf S L inp d pe hS hL] at h
    have hle := lineCountOf_le (inp ++ d)
    simp only [allData_cons, newlines_append] at hle ⊢
    by_cases h1 : (inp ++ d).length > S
    · rw [if_pos h1] at h
      simp only [Option.some.injEq, Prod.mk.injEq] at h
      obtain ⟨_, rfl⟩ := h
      simp only []
      omega
    · by_cases h2 : newlines (inp ++ d) > L
      · rw [if_neg h1, if_pos h2] at h
        simp only [Option.some.injEq, Prod.mk.injEq] at h
        obtain ⟨_, rfl⟩ := h
        simp only [newlines_append]
        omega
      · rw [if_neg h1, if_neg h2] at h
        cases pe with
        | nil =>
          simp only [] at h
          have := ih (inp ++ d) (by omega) (by omega) h
          simp only [newlines_append] at this
          omega
        | EOF =>
          simp only [] at h
          by_cases h3 : lineCountOf (inp ++ d) > L
          · rw [if_pos h3] at h
            simp only [Option.some.injEq, Prod.mk.injEq] at h
            obtain ⟨_, rfl⟩ := h
            simp only []
            omega
          · rw [if_neg h3] at h; simp at h
        | other x =>
          simp only [Option.some.injEq, Prod.mk.injEq] at h
          obtain ⟨_, rfl⟩ := h
          simp only [newlines_append]
          omega

/-- Every byte-size failure is produced at a chunk reached through plain pulls that stayed
within the size limit; it counts that chunk in bytes and not in lines. -/
theorem runFrom_byte_failure (S L : Nat) (sz : TextFileSize) (e : TextFileLimitError)
    (hkind : e.Kind = TextFileErrorKind.TextFileExceededByteSizeLimit) :
    ∀ (ps : List ReadResult) (inp : List Nat), inp.length ≤ S → newlines inp ≤ L →
      runFrom (newChecker S L true) (stateOf inp) ps = some (sz, some e) →
      ∃ pre d e0 post, ps = plainPulls pre ++ { data := d, err := e0 } :: post ∧
        (inp ++ pre.flatten).length ≤ S ∧
        e.BytesRead = (inp ++ pre.flatten ++ d).length ∧
        e.LinesRead = newlines (inp ++ pre.flatten) := by
  intro ps
  induction ps with
  | nil => intro inp _ _ h; simp [runFrom_nil] at h
  | cons p ps ih =>
    intro inp hS hL h
    obtain ⟨d, pe⟩ := p
    rw [runFrom_cons, iteration_stateOf S L inp d pe hS hL] at h
    by_cases h1 : (inp ++ d).length > S
    · rw [if_pos h1] at h
      simp only [Option.some.injEq, Prod.mk.injEq] at h
      obtain ⟨_, rfl⟩ := h
      exact ⟨[], d, pe, ps, by simp [plainPulls], by simpa using hS, by simp, by simp⟩
    · by_cases h2 : newlines (inp ++ d) > L
      · rw [if_neg h1, if_pos h2] at h
        simp only [Option.some.injEq, Prod.mk.injEq] at h
        obtain ⟨_, rfl⟩ := h
        simp at hkind
      · rw [if_neg h1, if_neg h2] at h
        cases pe with
        | nil =>
          simp only [] at h
          obtain ⟨pre, d1, e0, post, hps, hpre, hb, hl⟩ := ih (inp ++ d) (by omega) (by omega) h
          refine ⟨d :: pre, d1, e0, post, ?_, ?_, ?_, ?_⟩
          · simp [plainPulls, hps]
          · simpa [List.append_assoc] using hpre
          · simpa [List.append_assoc] using hb
          · simpa [List.append_assoc] using hl
        | EOF =>
          simp only [] at h
          by_cases h3 : lineCountOf (inp ++ d) > L
          · rw [if_pos h3] at h
            simp only [Option.some.injEq, Prod.mk.injEq] at h
            obtain ⟨_, rfl⟩ := h
            simp at hkind
          · rw [if_neg h3] at h; simp at h
        | other x =>
          simp only [Option.some.injEq, Prod.mk.injEq] at h
          obtain ⟨_, rfl⟩ := h
          simp at hkind

/-! ## The claims, continued -/

/-- C11: a FakeReader with zero records signals end-of-stream with zero bytes on its first
pull, and TryReadAll over it succeeds with Size 0 and LineCount 0, for all limits. -/
theorem tryReadAll_zero_records (S L fuel : Nat) :
    FakeReader.Read (NewFakeReader []) (16 * 1024) =
      some ({ data := [], err := Error.EOF }, NewFakeReader []) ∧
    (NewTextFileChecker S L).TryReadAll FakeReader.Read (fuel + 1) (NewFakeReader []) =
      some ({ Size := 0, LineCount := 0 }, none) := by
  constructor
  · rfl
  · simp [TextFileChecker.TryReadAll, checker.tryReadAll, checker.tryReadAllLoop,
      FakeReader.Read, NewFakeReader, NewTextFileChecker, newChecker, iteration, afterChunk]

/-- C12: end-of-stream delivered together with data is not an error and loses no bytes.  After
the same pulls `pre`, a pull that returns the bytes `d` with the end-of-stream signal gives
the same outcome of TryReadAll as the bytes `d` returned with a nil error followed by a pull
of zero bytes with end-of-stream. -/
theorem tryReadAll_eof_with_data {ρ σ : Type} (Read1 : ρ → Nat → Option (ReadResult × ρ))
    (Read2 : σ → Nat → Option (ReadResult × σ)) (rd1 : ρ) (rd2 : σ) (fuel1 fuel2 S L : Nat)
    (pre : List ReadResult) (d : List Nat) (post1 post2 : List ReadResult)
    (h1 : pullsOf Read1 (16 * 1024) fuel1 rd1 =
      pre ++ { data := d, err := Error.EOF } :: post1)
    (h2 : pullsOf Read2 (16 * 1024) fuel2 rd2 =
      pre ++ { data := d, err := Error.nil } :: { data := [], err := Error.EOF } :: post2) :
    (NewTextFileChecker S L).TryReadAll Read1 fuel1 rd1 =
      (NewTextFileChecker S L).TryReadAll Read2 fuel2 rd2 := by
  rw [TryReadAll_eq_readAll, TryReadAll_eq_readAll, h1, h2, readAll_eq_stateOf,
    readAll_eq_stateOf]
  exact runFrom_append_congr _ _ _ (fun st => runFrom_eof_split _ st d post1 post2) pre _

theorem tryReadAll_eof_with_data_witness :
    pullsOf scriptRead (16 * 1024) 2
        [{ data := [97, 10], err := Error.nil }, { data := [98], err := Error.EOF }] =
      [{ data := [97, 10], err := Error.nil }] ++ { data := [98], err := Error.EOF } :: [] ∧
    pullsOf FakeReader.Read (16 * 1024) 3
        (NewFakeReader [{ Data := [97, 10], Err := Error.nil },
          { Data := [98], Err := Error.nil }]) =
      [{ data := [97, 10], err := Error.nil }] ++ { data := [98], err := Error.nil } ::
        { data := [], err := Error.EOF } :: [] ∧
    (NewTextFileChecker 5 5).TryReadAll scriptRead 2
        [{ data := [97, 10], err := Error.nil }, { data := [98], err := Error.EOF }] =
      (NewTextFileChecker 5 5).TryReadAll FakeReader.Read 3
        (NewFakeReader [{ Data := [97, 10], Err := Error.nil },
          { Data := [98], Err := Error.nil }]) :=
  ⟨by decide, by decide,
   tryReadAll_eof_with_data scriptRead FakeReader.Read
     [{ data := [97, 10], err := Error.nil }, { data := [98], err := Error.EOF }]
     (NewFakeReader [{ Data := [97, 10], Err := Error.nil },
       { Data := [98], Err := Error.nil }])
     2 3 5 5 [{ data := [97, 10], err := Error.nil }] [98] [] [] (by decide) (by decide)⟩

/-- C13: bytes are processed before the accompanying error.  When the first pull with a
non-EOF error `x` delivers the bytes `d` (possibly none) and no limit is exceeded up to and
including that chunk, TryReadAll fails with kind read-error, IOError `x`, BytesRead the number
of bytes delivered up to and including that pull, and LinesRead the number of newline bytes
among them, with no increment for an unterminated final line. -/
theorem tryReadAll_read_error_counts {ρ : Type} (Read : ρ → Nat → Option (ReadResult × ρ))
    (rd : ρ) (fuel S L : Nat) (pre : List (List Nat)) (d : List Nat) (x : Nat)
    (post : List ReadResult)
    (hpulls : pullsOf Read (16 * 1024) fuel rd =
      plainPulls pre ++ { data := d, err := Error.other x } :: post)
    (hS : (pre.flatten ++ d).length ≤ S) (hL : newlines (pre.flatten ++ d) ≤ L) :
    (NewTextFileChecker S L).TryReadAll Read fuel rd =
      some ({ Size := (pre.flatten ++ d).length, LineCount := newlines (pre.flatten ++ d) },
        some { Kind := TextFileErrorKind.TextFileReadError,
               BytesRead := (pre.flatten ++ d).length,
               LinesRead := newlines (pre.flatten ++ d), IOError := Error.other x }) := by
  have hS0 : pre.flatten.length ≤ S := by
    simp only [List.length_append] at hS; omega
  have hL0 : newlines pre.flatten ≤ L := by
    simp only [newlines_append] at hL; omega
  rw [TryReadAll_eq_readAll, hpulls, readAll_eq_stateOf,
    runFrom_error_pull S L pre d x post hS0 hL0,
    iteration_stateOf S L pre.flatten d (Error.other x) hS0 hL0,
    if_neg (by omega), if_neg (by omega)]

theorem tryReadAll_read_error_counts_witness :
    pullsOf FakeReader.Read (16 * 1024) 2
        (NewFakeReader [{ Data := [97, 10], Err := Error.nil },
          { Data := [98, 10, 99], Err := Error.other 7 }]) =
      plainPulls [[97, 10]] ++ { data := [98, 10, 99], err := Error.other 7 } :: [] ∧
    ([[97, 10]].flatten ++ [98, 10, 99]).length ≤ 9 ∧
    newlines ([[97, 10]].flatten ++ [98, 10, 99]) ≤ 9 ∧
    (NewTextFileChecker 9 9).TryReadAll FakeReader.Read 2
        (NewFakeReader [{ Data := [97, 10], Err := Error.nil },
          { Data := [98, 10, 99], Err := Error.other 7 }]) =
      some ({ Size := ([[97, 10]].flatten ++ [98, 10, 99]).length,
              LineCount := newlines ([[97, 10]].flatten ++ [98, 10, 99]) },
        some { Kind := TextFileErrorKind.TextFileReadError,
               BytesRead := ([[97, 10]].flatten ++ [98, 10, 99]).length,
               LinesRead := newlines ([[97, 10]].flatten ++ [98, 10, 99]),
               IOError := Error.other 7 }) :=
  ⟨by decide, by decide, by decide,
   tryReadAll_read_error_counts FakeReader.Read
     (NewFakeReader [{ Data := [97, 10], Err := Error.nil },
       { Data := [98, 10, 99], Err := Error.other 7 }])
     2 9 9 [[97, 10]] [98, 10, 99] 7 [] (by decide) (by decide) (by decide)⟩

/-- C15: the first detected violation or I/O error ends the read.  If TryReadAll fails within
`n` pulls of a byte source (in particular for `n` the number of the failing pull), then it
returns the same failure on every byte source that agrees with it on the first `n` pulls,
whatever that source would do afterwards and however long the loop is allowed to run: no pull
after the failing one is performed. -/
theorem tryReadAll_first_failure_ends_read {ρ σ : Type}
    (Read1 : ρ → Nat → Option (ReadResult × ρ)) (Read2 : σ → Nat → Option (ReadResult × σ))
    (rd1 : ρ) (rd2 : σ) (n fuel2 S L : Nat) (sz : TextFileSize) (e : TextFileLimitError)
    (hfail : (NewTextFileChecker S L).TryReadAll Read1 n rd1 = some (sz, some e))
    (hagree : pullsOf Read2 (16 * 1024) n rd2 = pullsOf Read1 (16 * 1024) n rd1)
    (hfuel : n ≤ fuel2) :
    (NewTextFileChecker S L).TryReadAll Read2 fuel2 rd2 = some (sz, some e) := by
  rw [TryReadAll_eq_readAll, readAll_eq_stateOf] at hfail ⊢
  have hsplit : pullsOf Read2 (16 * 1024) fuel2 rd2 =
      pullsOf Read1 (16 * 1024) n rd1 ++ (pullsOf Read2 (16 * 1024) fuel2 rd2).drop n := by
    rw [← hagree, ← pullsOf_take Read2 (16 * 1024) fuel2 n rd2 hfuel, List.take_append_drop]
  rw [hsplit]
  exact runFrom_append_of_some _ _ _ _ _ hfail

theorem tryReadAll_first_failure_ends_read_witness :
    (NewTextFileChecker 2 5).TryReadAll FakeReader.Read 1
        (NewFakeReader [{ Data := [97, 98, 99], Err := Error.nil },
          { Data := [100], Err := Error.nil }]) =
      some ({ Size := 3, LineCount := 0 },
        some { Kind := TextFileErrorKind.TextFileExceededByteSizeLimit, BytesRead := 3,
               LinesRead := 0, IOError := Error.nil }) ∧
    pullsOf scriptRead (16 * 1024) 1 [{ data := [97, 98, 99], err := Error.nil }] =
      pullsOf FakeReader.Read (16 * 1024) 1
        (NewFakeReader [{ Data := [97, 98, 99], Err := Error.nil },
          { Data := [100], Err := Error.nil }]) ∧
    1 ≤ 7 ∧
    (NewTextFileChecker 2 5).TryReadAll scriptRead 7
        [{ data := [97, 98, 99], err := Error.nil }] =
      some ({ Size := 3, LineCount := 0 },
        some { Kind := TextFileErrorKind.TextFileExceededByteSizeLimit, BytesRead := 3,
               LinesRead := 0, IOError := Error.nil }) :=
  ⟨by decide, by decide, by decide,
   tryReadAll_first_failure_ends_read FakeReader.Read scriptRead
     (NewFakeReader [{ Data := [97, 98, 99], Err := Error.nil },
       { Data := [100], Err := Error.nil }])
     [{ data := [97, 98, 99], err := Error.nil }] 1 7 2 5 { Size := 3, LineCount := 0 }
     { Kind := TextFileErrorKind.TextFileExceededByteSizeLimit, BytesRead := 3,
       LinesRead := 0, IOError := Error.nil } (by decide) (by decide) (by decide)⟩

/-- C16: on a byte-size-exceeded failure the crossing chunk is counted in bytes but not in
lines.  Every such failure is produced at a chunk `d` reached through pulls `pre` with nil
errors that stayed within the size limit; BytesRead is the number of bytes delivered up to and
including `d`, and LinesRead is the number of newline bytes of the chunks before `d`. -/
theorem tryReadAll_byte_failure_counts {ρ : Type} (Read : ρ → Nat → Option (ReadResult × ρ))
    (rd : ρ) (fuel S L : Nat) (sz : TextFileSize) (e : TextFileLimitError)
    (h : (NewTextFileChecker S L).TryReadAll Read fuel rd = some (sz, some e))
    (hkind : e.Kind = TextFileErrorKind.TextFileExceededByteSizeLimit) :
    ∃ pre d e0 post, pullsOf Read (16 * 1024) fuel rd =
        plainPulls pre ++ { data := d, err := e0 } :: post ∧
      pre.flatten.length ≤ S ∧ (pre.flatten ++ d).length > S ∧
      e.BytesRead = (pre.flatten ++ d).length ∧
      e.LinesRead = newlines pre.flatten := by
  obtain ⟨st1, res, hit⟩ := tryReadAllLoop_some Read _ _ fuel rd _ h
  have hover : e.BytesRead > S := (iteration_ret_some _ st1 res sz e hit).1 hkind
  rw [TryReadAll_eq_readAll, readAll_eq_stateOf] at h
  obtain ⟨pre, d, e0, post, hps, hpre, hb, hl⟩ :=
    runFrom_byte_failure S L sz e hkind _ [] (by simp) (by simp [newlines]) h
  simp only [List.nil_append] at hpre hb hl
  exact ⟨pre, d, e0, post, hps, hpre, by omega, hb, hl⟩

theorem tryReadAll_byte_failure_counts_witness :
    (NewTextFileChecker 4 5).TryReadAll FakeReader.Read 3
        (NewFakeReader [{ Data := [97, 10], Err := Error.nil },
          { Data := [10, 10, 10], Err := Error.nil }]) =
      some ({ Size := 5, LineCount := 1 },
        some { Kind := TextFileErrorKind.TextFileExceededByteSizeLimit, BytesRead := 5,
               LinesRead := 1, IOError := Error.nil }) ∧
    TextFileErrorKind.TextFileExceededByteSizeLimit =
      TextFileErrorKind.TextFileExceededByteSizeLimit ∧
    ∃ pre d e0 post, pullsOf FakeReader.Read (16 * 1024) 3
          (NewFakeReader [{ Data := [97, 10], Err := Error.nil },
            { Data := [10, 10, 10], Err := Error.nil }]) =
        plainPulls pre ++ { data := d, err := e0 } :: post ∧
      pre.flatten.length ≤ 4 ∧ (pre.flatten ++ d).length > 4 ∧
      5 = (pre.flatten ++ d).length ∧ 1 = newlines pre.flatten :=
  ⟨by decide, rfl,
   tryReadAll_byte_failure_counts FakeReader.Read
     (NewFakeReader [{ Data := [97, 10], Err := Error.nil },
       { Data := [10, 10, 10], Err := Error.nil }])
     3 4 5 { Size := 5, LineCount := 1 }
     { Kind := TextFileErrorKind.TextFileExceededByteSizeLimit, BytesRead := 5,
       LinesRead := 1, IOError := Error.nil } (by decide) rfl⟩

/-- C18: fail-fast bound.  For a byte source that honours the contract of Read (no pull
returns more bytes than the 16 KiB scratch buffer holds), every byte-size-exceeded failure is
produced at a chunk `d` before which the accumulated bytes did not exceed the size limit; so
BytesRead minus the size limit is at most the size of that chunk, and BytesRead is at most
the size limit plus 16384. -/
theorem tryReadAll_fail_fast_bound {ρ : Type} (Read : ρ → Nat → Option (ReadResult × ρ))
    (rd : ρ) (fuel S L : Nat) (sz : TextFileSize) (e : TextFileLimitError)
    (h : (NewTextFileChecker S L).TryReadAll Read fuel rd = some (sz, some e))
    (hkind : e.Kind = TextFileErrorKind.TextFileExceededByteSizeLimit)
    (hcontract : ∀ p ∈ pullsOf Read (16 * 1024) fuel rd, p.data.length ≤ 16 * 1024) :
    (∃ pre d e0 post, pullsOf Read (16 * 1024) fuel rd =
        plainPulls pre ++ { data := d, err := e0 } :: post ∧
      pre.flatten.length ≤ S ∧ e.BytesRead = pre.flatten.length + d.length ∧
      e.BytesRead - S ≤ d.length ∧ d.length ≤ 16 * 1024) ∧
    e.BytesRead ≤ S + 16384 := by
  rw [TryReadAll_eq_readAll, readAll_eq_stateOf] at h
  obtain ⟨pre, d, e0, post, hps, hpre, hb, _⟩ :=
    runFrom_byte_failure S L sz e hkind _ [] (by simp) (by simp [newlines]) h
  simp only [List.nil_append, List.length_append] at hpre hb
  have hd : d.length ≤ 16 * 1024 := by
    have := hcontract { data := d, err := e0 } (by rw [hps]; simp)
    simpa using this
  exact ⟨⟨pre, d, e0, post, hps, hpre, hb, by omega, hd⟩, by omega⟩

theorem tryReadAll_fail_fast_bound_witness :
    (NewTextFileChecker 4 5).TryReadAll FakeReader.Read 3
        (NewFakeReader [{ Data := [97, 10], Err := Error.nil },
          { Data := [10, 10, 10], Err := Error.nil }]) =
      some ({ Size := 5, LineCount := 1 },
        some { Kind := TextFileErrorKind.TextFileExceededByteSizeLimit, BytesRead := 5,
               LinesRead := 1, IOError := Error.nil }) ∧
    TextFileErrorKind.TextFileExceededByteSizeLimit =
      TextFileErrorKind.TextFileExceededByteSizeLimit ∧
    (∀ p ∈ pullsOf FakeReader.Read (16 * 1024) 3
        (NewFakeReader [{ Data := [97, 10], Err := Error.nil },
          { Data := [10, 10, 10], Err := Error.nil }]), p.data.length ≤ 16 * 1024) ∧
    ((∃ pre d e0 post, pullsOf FakeReader.Read (16 * 1024) 3
          (NewFakeReader [{ Data := [97, 10], Err := Error.nil },
            { Data := [10, 10, 10], Err := Error.nil }]) =
        plainPulls pre ++ { data := d, err := e0 } :: post ∧
      pre.flatten.length ≤ 4 ∧ 5 = pre.flatten.length + d.length ∧
      5 - 4 ≤ d.length ∧ d.length ≤ 16 * 1024) ∧
     5 ≤ 4 + 16384) :=
  ⟨by decide, rfl, by decide,
   tryReadAll_fail_fast_bound FakeReader.Read
     (NewFakeReader [{ Data := [97, 10], Err := Error.nil },
       { Data := [10, 10, 10], Err := Error.nil }])
     3 4 5 { Size := 5, LineCount := 1 }
     { Kind := TextFileErrorKind.TextFileExceededByteSizeLimit, BytesRead := 5,
       LinesRead := 1, IOError := Error.nil } (by decide) rfl (by decide)⟩

/-! ## Facts about FakeReader -/

/-- One pull on a record: the bytes copied, the error returned and the next cursor. -/
theorem FakeReader_Read_record (r : FakeReader) (lenP : Nat) (ev : ReadEvent) (hp : 0 < lenP)
    (hev : r.events[r.eventIndex]? = some ev) (hdi : r.dataIndex ≤ ev.Data.length) :
    r.Read lenP =
      some ({ data := (ev.Data.drop r.dataIndex).take lenP, err := ev.Err },
        if ev.Data.length - r.dataIndex ≤ lenP then
          { r with dataIndex := 0, eventIndex := r.eventIndex + 1 }
        else { r with dataIndex := r.dataIndex + lenP }) := by
  have hlt : r.eventIndex < r.events.length := by
    rcases Nat.lt_or_ge r.eventIndex r.events.length with h | h
    · exact h
    · rw [List.getElem?_eq_none h] at hev; cases hev
  have hne : r.eventIndex ≠ r.events.length := Nat.ne_of_lt hlt
  have hp0 : lenP ≠ 0 := Nat.pos_iff_ne_zero.mp hp
  have hngt : ¬ r.dataIndex > ev.Data.length := by omega
  simp only [FakeReader.Read, hne, if_false, hp0, ne_eq, not_true_eq_false, hev, hngt,
    List.length_drop]
  by_cases hfit : ev.Data.length - r.dataIndex ≤ lenP
  · have hmin : min (ev.Data.length - r.dataIndex) lenP = ev.Data.length - r.dataIndex :=
      Nat.min_eq_left hfit
    have hhi : r.dataIndex + (ev.Data.length - r.dataIndex) = ev.Data.length := by omega
    rw [hmin, hhi, if_pos rfl, if_pos hfit, List.take_length,
      List.take_of_length_le (by simpa using hfit)]
  · have hmin : min (ev.Data.length - r.dataIndex) lenP = lenP := Nat.min_eq_right (by omega)
    have hhi : ¬ r.dataIndex + lenP = ev.Data.length := by omega
    rw [hmin, if_neg hhi, if_neg hfit, List.drop_take]
    simp

/-- Every run over a FakeReader produces a result within `fuel` pulls, where `fuel` exceeds
the bytes and records that remain from the cursor on. -/
theorem fakeReader_loop_terminates (c : checker) (hbuf : 0 < c.scratchBuf)
    (evs : List ReadEvent) :
    ∀ (fuel i j : Nat) (st : LoopState), i ≤ evs.length →
      (∀ ev, evs[i]? = some ev → j ≤ ev.Data.length) →
      ((evs.drop i).map (fun ev => ev.Data.length + 1)).sum - j < fuel →
      ∃ out, c.tryReadAllLoop FakeReader.Read fuel
        { events := evs, eventIndex := i, dataIndex := j } st = some out := by
  intro fuel
  induction fuel with
  | zero => intro i j st _ _ hm; omega
  | succ n ih =>
    intro i j st hi hj hm
    rcases Nat.eq_or_lt_of_le hi with heq | hlt
    · subst heq
      have hread : FakeReader.Read { events := evs, eventIndex := evs.length, dataIndex := j }
          c.scratchBuf = some ({ data := [], err := Error.EOF },
            { events := evs, eventIndex := evs.length, dataIndex := j }) := by
        by_cases hB : c.scratchBuf = 0 <;> simp [FakeReader.Read, hB]
      obtain ⟨out, hout⟩ := iteration_eof_ret c st []
      exact ⟨out, by simp only [checker.tryReadAllLoop, hread, hout]⟩
    · have hget : evs[i]? = some evs[i] := List.getElem?_eq_getElem hlt
      have hjle := hj _ hget
      have hread := FakeReader_Read_record
        { events := evs, eventIndex := i, dataIndex := j } c.scratchBuf evs[i] hbuf hget hjle
      simp only [checker.tryReadAllLoop, hread]
      cases iteration c st
          { data := List.take c.scratchBuf (List.drop j evs[i].Data), err := evs[i].Err } with
      | ret o => exact ⟨o, rfl⟩
      | next st1 =>
        simp only []
        rw [List.drop_eq_getElem_cons hlt] at hm
        simp only [List.map_cons, List.sum_cons] at hm
        by_cases hfit : evs[i].Data.length - j ≤ c.scratchBuf
        · rw [if_pos hfit]
          refine ih (i + 1) 0 st1 hlt (fun _ _ => Nat.zero_le _) ?_
          omega
        · rw [if_neg hfit]
          refine ih i (j + c.scratchBuf) st1 hi ?_ ?_
          · intro ev hev
            rw [hget] at hev
            cases hev
            omega
          · rw [List.drop_eq_getElem_cons hlt]
            simp only [List.map_cons, List.sum_cons]
            omega

/-- When every record fits the scratch buffer, one pull per remaining record and one more
pull are enough. -/
theorem fakeReader_loop_terminates_fit (c : checker) (hbuf : 0 < c.scratchBuf)
    (evs : List ReadEvent) (hfit : ∀ ev ∈ evs, ev.Data.length ≤ c.scratchBuf) :
    ∀ (fuel i : Nat) (st : LoopState), i ≤ evs.length → evs.length - i < fuel →
      ∃ out, c.tryReadAllLoop FakeReader.Read fuel
        { events := evs, eventIndex := i, dataIndex := 0 } st = some out := by
  intro fuel
  induction fuel with
  | zero => intro i st _ hm; omega
  | succ n ih =>
    intro i st hi hm
    rcases Nat.eq_or_lt_of_le hi with heq | hlt
    · subst heq
      obtain ⟨out, hout⟩ := iteration_eof_ret c st []
      exact ⟨out, by simp only [checker.tryReadAllLoop, FakeReader_Read_eof, hout]⟩
    · have hget : evs[i]? = some evs[i] := List.getElem?_eq_getElem hlt
      have hmem : evs[i] ∈ evs := List.getElem_mem hlt
      simp only [checker.tryReadAllLoop,
        FakeReader_Read_event evs i c.scratchBuf evs[i] hbuf hget (hfit _ hmem)]
      cases iteration c st { data := evs[i].Data, err := evs[i].Err } with
      | ret o => exact ⟨o, rfl⟩
      | next st1 => exact ih (i + 1) st1 hlt (by omega)

/-! ## The claims about FakeReader -/

/-- C17, as stated, fails: with a buffer of two bytes, the first pull on a record of three
bytes with an attached error copies two bytes, leaves one byte undelivered (the cursor stays
on the record) and returns the record's error, not nil; the next pull delivers the last byte,
returns the error a second time and advances. -/
theorem fakeReader_partial_pull_returns_err :
    FakeReader.Read (NewFakeReader [{ Data := [97, 98, 99], Err := Error.other 7 }]) 2 =
      some ({ data := [97, 98], err := Error.other 7 },
        { events := [{ Data := [97, 98, 99], Err := Error.other 7 }], eventIndex := 0,
          dataIndex := 2 }) ∧
    FakeReader.Read
        ({ events := [{ Data := [97, 98, 99], Err := Error.other 7 }], eventIndex := 0,
           dataIndex := 2 } : FakeReader) 2 =
      some ({ data := [99], err := Error.other 7 },
        { events := [{ Data := [97, 98, 99], Err := Error.other 7 }], eventIndex := 1,
          dataIndex := 0 }) := by
  decide

/-- C17, amended: FakeReader.Read returns the current record's Err with every pull that
copies bytes of that record.  For a cursor on a record and a non-empty buffer, the pull
copies the next bytes of the record, as many as the buffer holds, and returns the record's
Err whether or not bytes of the record remain undelivered; the reader advances to the next
record exactly when the remaining data fit the buffer, so that only then the Err is returned
once.  A pull with an empty buffer copies nothing, returns a nil error and leaves the cursor
in place. -/
theorem fakeReader_read_returns_record_err (r : FakeReader) (ev : ReadEvent)
    (hev : r.events[r.eventIndex]? = some ev) (hdi : r.dataIndex ≤ ev.Data.length) :
    r.Read 0 = some ({ data := [], err := Error.nil }, r) ∧
    ∀ lenP, 0 < lenP →
      ∃ res r1, r.Read lenP = some (res, r1) ∧
        res.data = (ev.Data.drop r.dataIndex).take lenP ∧ res.err = ev.Err ∧
        (ev.Data.length - r.dataIndex ≤ lenP →
          r1 = { r with dataIndex := 0, eventIndex := r.eventIndex + 1 }) ∧
        (lenP < ev.Data.length - r.dataIndex →
          r1 = { r with dataIndex := r.dataIndex + lenP }) := by
  constructor
  · have hlt : r.eventIndex < r.events.length := by
      rcases Nat.lt_or_ge r.eventIndex r.events.length with h | h
      · exact h
      · rw [List.getElem?_eq_none h] at hev; cases hev
    simp [FakeReader.Read, Nat.ne_of_lt hlt]
  · intro lenP hp
    refine ⟨_, _, FakeReader_Read_record r lenP ev hp hev hdi, rfl, rfl, ?_, ?_⟩
    · intro h; rw [if_pos h]
    · intro h; rw [if_neg (by omega)]

theorem fakeReader_read_returns_record_err_witness :
    (NewFakeReader [{ Data := [97, 98, 99], Err := Error.other 7 }]).events[
        (NewFakeReader [{ Data := [97, 98, 99], Err := Error.other 7 }]).eventIndex]? =
      some { Data := [97, 98, 99], Err := Error.other 7 } ∧
    (NewFakeReader [{ Data := [97, 98, 99], Err := Error.other 7 }]).dataIndex ≤
      ({ Data := [97, 98, 99], Err := Error.other 7 } : ReadEvent).Data.length ∧
    (FakeReader.Read (NewFakeReader [{ Data := [97, 98, 99], Err := Error.other 7 }]) 0 =
        some ({ data := [], err := Error.nil },
          NewFakeReader [{ Data := [97, 98, 99], Err := Error.other 7 }]) ∧
     ∀ lenP, 0 < lenP →
      ∃ res r1,
        FakeReader.Read (NewFakeReader [{ Data := [97, 98, 99], Err := Error.other 7 }]) lenP =
          some (res, r1) ∧
        res.data =
          (List.drop (NewFakeReader [{ Data := [97, 98, 99], Err := Error.other 7 }]).dataIndex
            ({ Data := [97, 98, 99], Err := Error.other 7 } : ReadEvent).Data).take lenP ∧
        res.err = ({ Data := [97, 98, 99], Err := Error.other 7 } : ReadEvent).Err ∧
        (({ Data := [97, 98, 99], Err := Error.other 7 } : ReadEvent).Data.length -
            (NewFakeReader [{ Data := [97, 98, 99], Err := Error.other 7 }]).dataIndex ≤ lenP →
          r1 = { NewFakeReader [{ Data := [97, 98, 99], Err := Error.other 7 }] with
                 dataIndex := 0,
                 eventIndex :=
                   (NewFakeReader [{ Data := [97, 98, 99], Err := Error.other 7 }]).eventIndex +
                     1 }) ∧
        (lenP < ({ Data := [97, 98, 99], Err := Error.other 7 } : ReadEvent).Data.length -
            (NewFakeReader [{ Data := [97, 98, 99], Err := Error.other 7 }]).dataIndex →
          r1 = { NewFakeReader [{ Data := [97, 98, 99], Err := Error.other 7 }] with
                 dataIndex :=
                   (NewFakeReader [{ Data := [97, 98, 99], Err := Error.other 7 }]).dataIndex +
                     lenP })) :=
  ⟨by decide, by decide,
   fakeReader_read_returns_record_err
     (NewFakeReader [{ Data := [97, 98, 99], Err := Error.other 7 }])
     { Data := [97, 98, 99], Err := Error.other 7 } (by decide) (by decide)⟩

/-- C19: termination on scripted sources.  For every finite list of read events and all
limits, TryReadAll over a FakeReader built from the list produces a result within
`fakePullBound events` pulls, as every pull with the non-empty scratch buffer finishes a
record, copies at least one byte of it, or signals end-of-stream; when every record's data
fits the 16 KiB scratch buffer, it produces the result within one pull per record plus one
final pull.  Records with the error io.EOF need not be excluded. -/
theorem tryReadAll_fakeReader_terminates (S L : Nat) (events : List ReadEvent) :
    (∃ out, (NewTextFileChecker S L).TryReadAll FakeReader.Read (fakePullBound events)
        (NewFakeReader events) = some out) ∧
    ((∀ ev ∈ events, ev.Data.length ≤ 16 * 1024) →
      ∃ out, (NewTextFileChecker S L).TryReadAll FakeReader.Read (events.length + 1)
        (NewFakeReader events) = some out) := by
  have hbuf : 0 < (newChecker S L true).scratchBuf := by
    show 0 < 16 * 1024
    decide
  constructor
  · exact fakeReader_loop_terminates (newChecker S L true) hbuf events
      (fakePullBound events) 0 0 _ (Nat.zero_le _) (fun _ _ => Nat.zero_le _)
      (by simp [fakePullBound])
  · intro hfit
    exact fakeReader_loop_terminates_fit (newChecker S L true) hbuf events hfit
      (events.length + 1) 0 _ (Nat.zero_le _) (by omega)

theorem tryReadAll_fakeReader_terminates_witness :
    (∀ ev ∈ [({ Data := [97, 10], Err := Error.nil } : ReadEvent),
        { Data := [], Err := Error.nil }, { Data := [98], Err := Error.nil }],
      ev.Data.length ≤ 16 * 1024) ∧
    ∃ out, (NewTextFileChecker 9 9).TryReadAll FakeReader.Read
        ([({ Data := [97, 10], Err := Error.nil } : ReadEvent),
          { Data := [], Err := Error.nil }, { Data := [98], Err := Error.nil }].length + 1)
        (NewFakeReader [{ Data := [97, 10], Err := Error.nil },
          { Data := [], Err := Error.nil }, { Data := [98], Err := Error.nil }]) = some out :=
  ⟨by decide,
   (tryReadAll_fakeReader_terminates 9 9
     [{ Data := [97, 10], Err := Error.nil }, { Data := [], Err := Error.nil },
       { Data := [98], Err := Error.nil }]).2 (by decide)⟩

/-! ## Facts about the loop with the machine line counter -/

theorem wrapInt_le (x : Int) : wrapInt x ≤ 9223372036854775807 := by
  unfold wrapInt; omega

theorem wrapInt_succ (x : Int) : wrapInt (wrapInt x + 1) = wrapInt (x + 1) := by
  unfold wrapInt; omega

theorem wrapInt_eq_self (x : Int) (h0 : -9223372036854775808 ≤ x)
    (h1 : x ≤ 9223372036854775807) : wrapInt x = x := by
  unfold wrapInt; omega

theorem NO_LINE_LIMIT_int : ((NO_LINE_LIMIT : Nat) : Int) = 9223372036854775807 := by
  decide

theorem machine_scanLines_le (d : List Nat) :
    ∀ lc : Int, lc ≤ 9223372036854775807 → Machine.scanLines d lc ≤ 9223372036854775807 := by
  induction d with
  | nil => intro lc h; exact h
  | cons b bs ih =>
    intro lc h
    simp only [Machine.scanLines]
    split
    · exact ih _ (wrapInt_le _)
    · exact ih _ h

theorem machine_scanLines_eq (d : List Nat) :
    ∀ a : Int, Machine.scanLines d (wrapInt a) = wrapInt (a + (newlines d : Nat)) := by
  induction d with
  | nil => intro a; simp [Machine.scanLines, newlines]
  | cons b bs ih =>
    intro a
    by_cases hb : b = 10
    · subst hb
      simp only [Machine.scanLines, if_true, wrapInt_succ, ih, newlines, List.count_cons_self]
      push_cast
      congr 1
      omega
    · have hb2 : ¬ (10 = b) := fun h => hb h.symm
      simp only [Machine.scanLines, hb, if_false, ih, newlines]
      simp [List.count_cons, hb]

/-- With the largest representable line limit, one iteration keeps the line counter
representable and never produces a line-count failure. -/
theorem machine_iteration_no_line (c : Machine.checker) (st : Machine.LoopState)
    (p : ReadResult) (hinv : st.soFar.LineCount ≤ 9223372036854775807)
    (hlim : c.lineLimit = 9223372036854775807) :
    (∀ st1, Machine.iteration c st p = Machine.Step.next st1 →
      st1.soFar.LineCount ≤ 9223372036854775807) ∧
    (∀ sz e, Machine.iteration c st p = Machine.Step.ret (sz, some e) →
      e.Kind ≠ TextFileErrorKind.TextFileExceededLineCountLimit) := by
  obtain ⟨d, pe⟩ := p
  obtain ⟨⟨s0, l0⟩, lb⟩ := st
  simp only at hinv
  have hs := machine_scanLines_le d l0 hinv
  have hw1 := wrapInt_le (l0 + 1)
  have hw2 := wrapInt_le (Machine.scanLines d l0 + 1)
  constructor
  · intro st1 h
    cases pe with
    | nil =>
      simp only [Machine.iteration, Machine.afterChunk, Machine.makeError, ne_eq, reduceCtorEq,
        not_false_eq_true, if_true, not_true_eq_false, if_false, true_or, hlim] at h
      split_ifs at h <;> simp at h <;> subst h <;> simp_all
    | EOF =>
      simp only [Machine.iteration, Machine.afterChunk, Machine.makeError, ne_eq, reduceCtorEq,
        not_false_eq_true, if_true, not_true_eq_false, if_false, or_true, hlim] at h
      split_ifs at h
    | other x =>
      simp only [Machine.iteration, Machine.afterChunk, Machine.makeError, ne_eq, reduceCtorEq,
        not_false_eq_true, if_true, not_true_eq_false, if_false, or_self, hlim] at h
      split_ifs at h
  · intro sz e h
    cases pe with
    | nil =>
      simp only [Machine.iteration, Machine.afterChunk, Machine.makeError, ne_eq, reduceCtorEq,
        not_false_eq_true, if_true, not_true_eq_false, if_false, true_or, hlim] at h
      split_ifs at h <;> simp at h <;> obtain ⟨_, rfl⟩ := h <;> simp_all <;> omega
    | EOF =>
      simp only [Machine.iteration, Machine.afterChunk, Machine.makeError, ne_eq, reduceCtorEq,
        not_false_eq_true, if_true, not_true_eq_false, if_false, or_true, hlim] at h
      split_ifs at h <;> simp at h <;> obtain ⟨_, rfl⟩ := h <;> simp_all <;> omega
    | other x =>
      simp only [Machine.iteration, Machine.afterChunk, Machine.makeError, ne_eq, reduceCtorEq,
        not_false_eq_true, if_true, not_true_eq_false, if_false, or_self, hlim] at h
      split_ifs at h <;> simp at h <;> obtain ⟨_, rfl⟩ := h <;> simp_all <;> omega

/-- No run under the largest representable line limit ends in a line-count failure.  The proof
uses only that the line counter never holds a value above that limit; nothing is assumed
about the reader, the bytes it delivers or the byte counter. -/
theorem machine_loop_no_line {ρ : Type} (Read : ρ → Nat → Option (ReadResult × ρ))
    (c : Machine.checker) (hlim : c.lineLimit = 9223372036854775807)
    (sz : Machine.TextFileSize) (e : Machine.TextFileLimitError) :
    ∀ (fuel : Nat) (rd : ρ) (st : Machine.LoopState),
      st.soFar.LineCount ≤ 9223372036854775807 →
      c.tryReadAllLoop Read fuel rd st = some (sz, some e) →
      e.Kind ≠ TextFileErrorKind.TextFileExceededLineCountLimit := by
  intro fuel
  induction fuel with
  | zero => intro rd st _ h; simp [Machine.checker.tryReadAllLoop] at h
  | succ n ih =>
    intro rd st hinv h
    simp only [Machine.checker.tryReadAllLoop] at h
    cases hr : Read rd c.scratchBuf with
    | none => simp [hr] at h
    | some pr =>
      obtain ⟨res, rd1⟩ := pr
      simp only [hr] at h
      have hstep := machine_iteration_no_line c st res hinv hlim
      cases hi : Machine.iteration c st res with
      | ret o =>
        simp only [hi, Option.some.injEq] at h
        subst h
        exact hstep.2 sz e hi
      | next st1 =>
        simp only [hi] at h
        exact ih rd1 st1 (hstep.1 st1 hi) h

/-- What one iteration does on a state reached by consuming `inp`, for a text-file checker
with the largest representable line limit. -/
theorem machine_iteration_stateOf (S : Nat) (inp d : List Nat) (e : Error)
    (hS : inp.length ≤ S) :
    Machine.iteration (Machine.newChecker S 9223372036854775807 true) (Machine.stateOf inp)
        { data := d, err := e } =
      if (inp ++ d).length > S then
        Machine.Step.ret
          ({ Size := (inp ++ d).length, LineCount := wrapInt (newlines inp : Nat) },
            some { Kind := TextFileErrorKind.TextFileExceededByteSizeLimit,
                   BytesRead := (inp ++ d).length, LinesRead := wrapInt (newlines inp : Nat),
                   IOError := quiet e })
      else
        match e with
        | Error.nil => Machine.Step.next (Machine.stateOf (inp ++ d))
        | Error.EOF =>
          Machine.Step.ret
            ({ Size := (inp ++ d).length,
               LineCount := wrapInt (lineCountOf (inp ++ d) : Nat) }, none)
        | Error.other x =>
          Machine.Step.ret
            ({ Size := (inp ++ d).length, LineCount := wrapInt (newlines (inp ++ d) : Nat) },
              some { Kind := TextFileErrorKind.TextFileReadError,
                     BytesRead := (inp ++ d).length,
                     LinesRead := wrapInt (newlines (inp ++ d) : Nat),
                     IOError := Error.other x }) := by
  have hcast : ((newlines (inp ++ d) : Nat) : Int) = (newlines inp : Nat) + (newlines d : Nat) := by
    rw [newlines_append]; push_cast; rfl
  by_cases hd : d = []
  · subst hd
    have h1 : ¬ (inp.length > S) := by omega
    have hw := wrapInt_le ((newlines inp : Nat) + 1)
    simp only [Machine.iteration, Machine.afterChunk, Machine.stateOf, Machine.makeError,
      Machine.newChecker, List.append_nil, lineCountOf_eq inp, h1, List.length_nil, gt_iff_lt,
      lt_irrefl, if_false, wrapInt_succ]
    generalize inp.getLastD 0 = lb at *
    generalize inp.length = n at *
    generalize newlines inp = m at *
    cases e with
    | nil => simp
    | EOF =>
      by_cases h3 : lb = 10
      · simp [h3]
      · by_cases h4 : 0 < n
        · have h5 : ¬ (9223372036854775807 < wrapInt ((m : Int) + 1)) := by omega
          simp [h3, h4, h5]
        · simp [h3, h4]
    | other x => simp
  · have hlen : 0 < d.length := List.length_pos.mpr hd
    have hlast : (inp ++ d).getLastD 0 = d.getLastD 0 := getLastD_append_ne_nil inp d hd
    have hw0 := wrapInt_le ((newlines inp : Nat) + (newlines d : Nat))
    have hw1 := wrapInt_le ((newlines inp : Nat) + (newlines d : Nat) + 1)
    simp only [Machine.iteration, Machine.newChecker, Machine.stateOf, Machine.makeError,
      machine_scanLines_eq, List.length_append, hcast, hlen, gt_iff_lt, if_true, true_and,
      Machine.afterChunk, lineCountOf_eq (inp ++ d), hlast, quiet, wrapInt_succ]
    generalize d.getLastD 0 = lb at *
    generalize inp.length = n at *
    generalize newlines inp = m at *
    generalize d.length = k at *
    generalize newlines d = j at *
    have h5 : ¬ (9223372036854775807 < wrapInt ((m : Int) + (j : Int))) := by omega
    have h6 : ¬ (9223372036854775807 < wrapInt ((m : Int) + (j : Int) + 1)) := by omega
    by_cases h1 : S < n + k
    · simp [h1]
    · cases e with
      | nil => simp [h1, h5]
      | EOF =>
        have h4 : 0 < n + k := by omega
        by_cases h3 : lb = 10
        · simp [h1, h5, h3, hcast]
        · simp [h1, h5, h3, h4, h6, hcast]
      | other x => simp [h1, h5]

theorem pullsOf_eq_cons {ρ : Type} (Read : ρ → Nat → Option (ReadResult × ρ)) (B fuel : Nat)
    (rd : ρ) (p : ReadResult) (rest : List ReadResult)
    (h : pullsOf Read B fuel rd = p :: rest) :
    ∃ n rd1, fuel = n + 1 ∧ Read rd B = some (p, rd1) ∧ pullsOf Read B n rd1 = rest := by
  cases fuel with
  | zero => simp [pullsOf] at h
  | succ n =>
    simp only [pullsOf] at h
    cases hr : Read rd B with
    | none => simp [hr] at h
    | some pr =>
      obtain ⟨res, rd1⟩ := pr
      simp only [hr, List.cons.injEq] at h
      exact ⟨n, rd1, rfl, by rw [h.1], h.2⟩

/-- An error-free source under the largest representable line limit: the run produces a
result; it is a success with the byte count and the wrapped line count of the input when the
input is within the size limit, and every success has these counts. -/
theorem machine_errorFree_run {ρ : Type} (Read : ρ → Nat → Option (ReadResult × ρ)) (S : Nat)
    (d : List Nat) (post : List ReadResult) :
    ∀ (chunks : List (List Nat)) (fuel : Nat) (rd : ρ) (inp : List Nat), inp.length ≤ S →
      pullsOf Read (16 * 1024) fuel rd =
        plainPulls chunks ++ { data := d, err := Error.EOF } :: post →
      ∃ out, (Machine.newChecker S 9223372036854775807 true).tryReadAllLoop Read fuel rd
          (Machine.stateOf inp) = some out ∧
        ((inp ++ chunks.flatten ++ d).length ≤ S →
          out = ({ Size := (inp ++ chunks.flatten ++ d).length,
                   LineCount := wrapInt (lineCountOf (inp ++ chunks.flatten ++ d) : Nat) },
                 none)) ∧
        (∀ sz, out = (sz, none) →
          sz = { Size := (inp ++ chunks.flatten ++ d).length,
                 LineCount := wrapInt (lineCountOf (inp ++ chunks.flatten ++ d) : Nat) }) := by
  intro chunks
  induction chunks with
  | nil =>
    intro fuel rd inp hS hpulls
    simp only [plainPulls, List.map_nil, List.nil_append] at hpulls
    obtain ⟨n, rd1, rfl, hread, _⟩ := pullsOf_eq_cons Read _ fuel rd _ _ hpulls
    have hbuf : (Machine.newChecker S 9223372036854775807 true).scratchBuf = 16 * 1024 := rfl
    simp only [Machine.checker.tryReadAllLoop, hbuf, hread,
      machine_iteration_stateOf S inp d Error.EOF hS, List.flatten_nil, List.append_nil]
    by_cases h1 : (inp ++ d).length > S
    · rw [if_pos h1]
      refine ⟨_, rfl, fun h => absurd h (by omega), fun sz h => ?_⟩
      simp at h
    · rw [if_neg h1]
      refine ⟨_, rfl, fun _ => rfl, fun sz h => ?_⟩
      simp only [Prod.mk.injEq, and_true] at h
      exact h.symm
  | cons c0 cs ih =>
    intro fuel rd inp hS hpulls
    simp only [plainPulls, List.map_cons, List.cons_append] at hpulls
    obtain ⟨n, rd1, rfl, hread, hrest⟩ := pullsOf_eq_cons Read _ fuel rd _ _ hpulls
    have hbuf : (Machine.newChecker S 9223372036854775807 true).scratchBuf = 16 * 1024 := rfl
    simp only [Machine.checker.tryReadAllLoop, hbuf, hread,
      machine_iteration_stateOf S inp c0 Error.nil hS, List.flatten_cons, ← List.append_assoc]
    by_cases h1 : (inp ++ c0).length > S
    · rw [if_pos h1]
      refine ⟨_, rfl, fun h => ?_, fun sz h => ?_⟩
      · simp only [List.length_append] at h h1; omega
      · simp at h
    · rw [if_neg h1]
      exact ih n rd1 (inp ++ c0) (by omega) hrest

/-- TryReadAll of a checker built with NO_LINE_LIMIT is the loop started in the state of the
empty input. -/
theorem machine_TryReadAll_eq {ρ : Type} (Read : ρ → Nat → Option (ReadResult × ρ))
    (S fuel : Nat) (rd : ρ) :
    (Machine.NewTextFileChecker S NO_LINE_LIMIT).TryReadAll Read fuel rd =
      (Machine.newChecker S 9223372036854775807 true).tryReadAllLoop Read fuel rd
        (Machine.stateOf []) := by
  simp [Machine.TextFileChecker.TryReadAll, Machine.checker.tryReadAll,
    Machine.NewTextFileChecker, NO_LINE_LIMIT_int, Machine.stateOf, Machine.newChecker,
    newlines, wrapInt]

/-! ## The claim about NO_LINE_LIMIT -/

/-- C14: with the line limit set to NO_LINE_LIMIT, the maximum representable LineCount, and
the line counter a 64-bit Go `int`, TryReadAll never fails with kind line-count-exceeded, for
any byte source, any size limit and any number of pulls: every failure is of kind
byte-size-exceeded or read-error.  For an error-free source the read succeeds whenever the
input is within the size limit, and on success the returned LineCount is the true line count
of the input as a LineCount value (`wrapInt` of it, which is the true line count itself
whenever that number is representable, that is, at most NO_LINE_LIMIT). -/
theorem tryReadAll_no_line_limit {ρ : Type} (Read : ρ → Nat → Option (ReadResult × ρ))
    (rd : ρ) (fuel S : Nat) :
    (∀ sz e, (Machine.NewTextFileChecker S NO_LINE_LIMIT).TryReadAll Read fuel rd =
        some (sz, some e) →
      e.Kind ≠ TextFileErrorKind.TextFileExceededLineCountLimit ∧
      (e.Kind = TextFileErrorKind.TextFileExceededByteSizeLimit ∨
        e.Kind = TextFileErrorKind.TextFileReadError)) ∧
    (∀ chunks d post, pullsOf Read (16 * 1024) fuel rd =
        plainPulls chunks ++ { data := d, err := Error.EOF } :: post →
      (∀ sz, (Machine.NewTextFileChecker S NO_LINE_LIMIT).TryReadAll Read fuel rd =
          some (sz, none) →
        sz.Size = (chunks.flatten ++ d).length ∧
        sz.LineCount = wrapInt (lineCountOf (chunks.flatten ++ d) : Nat) ∧
        (lineCountOf (chunks.flatten ++ d) ≤ NO_LINE_LIMIT →
          sz.LineCount = (lineCountOf (chunks.flatten ++ d) : Nat))) ∧
      ((chunks.flatten ++ d).length ≤ S →
        (Machine.NewTextFileChecker S NO_LINE_LIMIT).TryReadAll Read fuel rd =
          some ({ Size := (chunks.flatten ++ d).length,
                  LineCount := wrapInt (lineCountOf (chunks.flatten ++ d) : Nat) }, none))) := by
  constructor
  · intro sz e h
    rw [machine_TryReadAll_eq] at h
    have hnot : e.Kind ≠ TextFileErrorKind.TextFileExceededLineCountLimit :=
      machine_loop_no_line Read _ rfl sz e fuel rd _ (by simp [Machine.stateOf, wrapInt_le]) h
    refine ⟨hnot, ?_⟩
    cases hk : e.Kind with
    | TextFileExceededByteSizeLimit => exact Or.inl rfl
    | TextFileExceededLineCountLimit => exact absurd hk hnot
    | TextFileReadError => exact Or.inr rfl
  · intro chunks d post hpulls
    obtain ⟨out, hrun, hwithin, hsucc⟩ :=
      machine_errorFree_run Read S d post chunks fuel rd [] (by simp) hpulls
    simp only [List.nil_append] at hwithin hsucc
    rw [machine_TryReadAll_eq, hrun]
    constructor
    · intro sz h
      simp only [Option.some.injEq] at h
      have hsz := hsucc sz h
      subst hsz
      refine ⟨rfl, rfl, fun hrep => ?_⟩
      have hrep2 : ((lineCountOf (chunks.flatten ++ d) : Nat) : Int) ≤ 9223372036854775807 := by
        rw [← NO_LINE_LIMIT_int]
        exact_mod_cast hrep
      exact wrapInt_eq_self _ (by omega) hrep2
    · intro hS
      rw [hwithin hS]

theorem tryReadAll_no_line_limit_witness :
    pullsOf FakeReader.Read (16 * 1024) 3
        (NewFakeReader [{ Data := [10, 10, 10], Err := Error.nil },
          { Data := [97], Err := Error.nil }]) =
      plainPulls [[10, 10, 10], [97]] ++ { data := [], err := Error.EOF } :: [] ∧
    ([[10, 10, 10], [97]].flatten ++ []).length ≤ 9 ∧
    (Machine.NewTextFileChecker 9 NO_LINE_LIMIT).TryReadAll FakeReader.Read 3
        (NewFakeReader [{ Data := [10, 10, 10], Err := Error.nil },
          { Data := [97], Err := Error.nil }]) =
      some ({ Size := ([[10, 10, 10], [97]].flatten ++ []).length,
              LineCount := wrapInt (lineCountOf ([[10, 10, 10], [97]].flatten ++ []) : Nat) },
        none) :=
  ⟨by decide, by decide,
   ((tryReadAll_no_line_limit FakeReader.Read
      (NewFakeReader [{ Data := [10, 10, 10], Err := Error.nil },
        { Data := [97], Err := Error.nil }]) 3 9).2
      [[10, 10, 10], [97]] [] [] (by decide)).2 (by decide)⟩

end Rapidbug
